import Mathlib

/-!
# Daily check-in script (`src/index.js`)

A shallow embedding of the script: `Config`, `HttpClient.createOptions`,
`ActivityExecutor.executeActivity`, `executeSignIn`, `executeAllActivities`
and `main`.

* The remote server and the network are an oracle `env : Nat → Response`:
  the `k`-th call of `HttpClient.request` made by the program settles as
  `env k`.  The program is deterministic, so this covers every server.
* A run is observed through the list of `Event`s it produces: calls of
  `HttpClient.request`, `Utils.sleep`, `Utils.log`, `process.exit`, and a
  ghost event for each entry into `executeActivity`.
* Errors and log messages that interpolate a value are kept structured
  (`Err`, `LogMsg`) instead of being rendered to text.
-/

namespace Qiandao

/-! ## JavaScript values coming out of `JSON.parse` -/

/-- Value produced by `JSON.parse`.  Numbers are kept as integers: the script
only ever tests a number for being zero, so a non-integral number behaves as
any non-zero integer.  An object is its list of members in source order. -/
inductive Json where
  | null
  | bool (b : Bool)
  | num (n : Int)
  | str (s : String)
  | arr (items : List Json)
  | obj (members : List (String × Json))

/-- A JavaScript value as seen by the script: `none` is `undefined`. -/
abbrev Value := Option Json

/-- Errors raised while the script runs. -/
inductive Err where
  /-- rejection of `HttpClient.request`, with its message -/
  | requestFailed (message : String)
  /-- a `TypeError` raised by the runtime (property of `null`/`undefined`,
  call of a non-function, object that cannot be converted to a string) -/
  | typeError
  /-- the error `new Error('响应数据格式错误')` -/
  | badFormat
  /-- the error built from the template `已达到最大执行次数 $maxAttempts` -/
  | maxAttemptsReached (maxAttempts : Nat)
  /-- the error built from the template `活动执行失败：$msg` -/
  | activityFailed (msg : Json)
  /-- the error `new Error('缺少认证令牌，请设置AUTH_TOKEN环境变量')` -/
  | missingToken

/-- Does the object have an own member with this key? -/
def hasKey (key : String) : List (String × Json) → Bool
  | [] => false
  | (k, _) :: rest => k == key || hasKey key rest

/-- Own member of a parsed object; for a repeated key `JSON.parse` keeps the
last one. -/
def getMember (key : String) : List (String × Json) → Value
  | [] => none
  | (k, v) :: rest =>
    match getMember key rest with
    | some w => some w
    | none => if k == key then some v else none

/-- The expression `result.msg`: a `TypeError` on `null`, the own member of an
object, `undefined` on every other value (no prototype defines `msg`). -/
def getMsg : Json → Except Err Value
  | .null => .error .typeError
  | .obj members => .ok (getMember "msg" members)
  | _ => .ok none

/-- JavaScript truthiness (`!v` is its negation). -/
def truthy : Value → Bool
  | none => false
  | some .null => false
  | some (.bool b) => b
  | some (.num n) => n != 0
  | some (.str s) => s != ""
  | some (.arr _) => true
  | some (.obj _) => true

/-- The comparison `v === s` against a string literal. -/
def strictEqStr : Value → String → Bool
  | some (.str t), s => t == s
  | _, _ => false

/-- Does `text` start with `pat`? -/
def startsWith : List Char → List Char → Bool
  | _, [] => true
  | [], _ :: _ => false
  | c :: cs, d :: ds => c == d && startsWith cs ds

/-- Does `pat` occur in `text` as a contiguous block? -/
def occursIn (pat : List Char) : List Char → Bool
  | [] => startsWith [] pat
  | c :: cs => startsWith (c :: cs) pat || occursIn pat cs

/-- The method `String.prototype.includes`. -/
def stringIncludes (s pat : String) : Bool := occursIn pat.data s.data

/-- The method `Array.prototype.includes` with a string argument: some element
is that very string. -/
def arrayIncludes : List Json → String → Bool
  | [], _ => false
  | .str t :: rest, s => t == s || arrayIncludes rest s
  | _ :: rest, s => arrayIncludes rest s

/-- The call `v.includes(s)`: strings and arrays have the method; on
`undefined`, `null`, booleans, numbers and parsed objects it is a
`TypeError`. -/
def includes : Value → String → Except Err Bool
  | some (.str t), s => .ok (stringIncludes t s)
  | some (.arr items), s => .ok (arrayIncludes items s)
  | _, _ => .error .typeError

mutual
/-- Does converting the value to a string (as a template literal does) raise a
`TypeError`?  A parsed object does exactly when it has an own member
`toString` (which is never callable); an array joins its elements, skipping
`null`. -/
def Json.toStringThrows : Json → Bool
  | .obj members => hasKey "toString" members
  | .arr items => Json.anyToStringThrows items
  | _ => false
/-- Some element of the array raises when converted to a string. -/
def Json.anyToStringThrows : List Json → Bool
  | [] => false
  | x :: rest => x.toStringThrows || Json.anyToStringThrows rest
end

/-! ## Configuration -/

namespace Config

/-! The static member `Config.BASE`. -/

namespace BASE

def hostname : String := "api-bj.wenxiaobai.com"
def timeout : Nat := 10000
def maxRetries : Nat := 3
def retryDelay : Nat := 1000
def activityDelay : Nat := 8000
def maxAttempts : Nat := 15

end BASE

/-- Entry of `Config.TASKS.ACTIVITIES`. -/
structure Activity where
  taskName : String
  taskId : String
deriving DecidableEq

/-! The static member `Config.TASKS`. -/

namespace TASKS

def SIGN_IN : String := "5f2722e2668b3b6de7c14d495e3cbb51"

def ACTIVITIES : List Activity :=
  [ ⟨"浏览游戏广告", "49986ea4f9f6420bc6db9e0c58eb8819"⟩,
    ⟨"浏览商品广告", "fdae379cb3b3a19d6b654625f0747801"⟩,
    ⟨"浏览视频广告", "d5bc74ea7d8590d5cff7921e2885edf3"⟩,
    ⟨"浏览普通广告", "1a73ab0327754bb83e3ea0edc5aa834a"⟩,
    ⟨"隐藏广告", "f8fc47359795fe39535ead4bca48d175"⟩ ]

end TASKS

end Config

/-! ## HTTP helper -/

/-- The `headers` member of the request options. -/
structure Headers where
  /-- header `Content-Type` -/
  contentType : String
  /-- header `x-yuanshi-authorization` -/
  authorization : String
  /-- header `x-yuanshi-appname` -/
  appname : String
deriving DecidableEq

/-- Request options built by `HttpClient.createOptions`. -/
structure Options where
  hostname : String
  path : String
  method : String
  headers : Headers
  timeout : Nat
deriving DecidableEq

/-- How one call of `HttpClient.request` settles: resolved with the parsed
body, or rejected (bad status, unparsable body, network error, timeout) with
the message of the error. -/
inductive Response where
  | resolve (result : Json)
  | reject (message : String)

namespace HttpClient

def createOptions (token taskId : String) : Options :=
  { hostname := Config.BASE.hostname
    path := "/rest/api/task/trigger?taskId=" ++ taskId
    method := "POST"
    headers :=
      { contentType := "application/json"
        authorization := "Bearer " ++ token
        appname := "wanyu" }
    timeout := Config.BASE.timeout }

end HttpClient

/-! ## Observable events -/

/-- Second argument of `Utils.log`. -/
inductive LogLevel where
  | info
  | error
deriving DecidableEq

/-- First argument of `Utils.log`. -/
inductive LogMsg where
  /-- a message without interpolated response data -/
  | text (s : String)
  /-- the template `$name执行结果：$msg` of `executeActivity` -/
  | activityResult (name : String) (msg : Json)
  /-- the template `$message，$seconds秒后重试...` of `executeActivity` -/
  | retrying (error : Err) (seconds : Nat)
  /-- the message of a caught error -/
  | ofError (error : Err)

/-- What a run does, in order. -/
inductive Event where
  /-- ghost event: entry into `executeActivity` with these arguments -/
  | invoke (taskId taskName : String) (retryCount : Nat)
  /-- call of `HttpClient.request` -/
  | request (options : Options)
  /-- call of `Utils.sleep` -/
  | sleep (ms : Nat)
  /-- call of `Utils.log` -/
  | log (message : LogMsg) (level : LogLevel)
  /-- call of `process.exit` -/
  | exit (code : Nat)

/-- Result of running an async function from response index `k`: how its
promise settles, the events it produced, and the index of the next unused
response. -/
structure Run (α : Type) where
  outcome : Except Err α
  events : List Event
  next : Nat

/-- Put earlier events in front of a run. -/
def Run.after {α : Type} (earlier : List Event) (r : Run α) : Run α :=
  { r with events := earlier ++ r.events }

/-! ## Activity executor -/

namespace ActivityExecutor

open Config Config.BASE Config.TASKS HttpClient

/-- How the `try` block of one invocation of `executeActivity` ends. -/
inductive TryEnd where
  /-- the statement `return result` -/
  | returned (result : Json)
  /-- the statement `return this.executeActivity(taskId, taskName, retryCount + 1)`
  of the `SUCCESS` branch; it is not awaited, so the settlement of the inner
  call is not seen by the `catch` block of this invocation -/
  | recurse
  /-- an error is thrown and control passes to the `catch` block -/
  | thrown (error : Err)

/-- The log line `$name执行结果：$msg`, where `$name` is `taskName || '活动'`. -/
def shown (taskName : String) (msg : Json) : Event :=
  Event.log (.activityResult (if taskName = "" then "活动" else taskName) msg) .info

/-- The `try` block of `executeActivity` from the point where the awaited
request has settled as `response`: the events it produces and how it ends. -/
def tryBlock (response : Response) (taskName : String) (retryCount : Nat) :
    List Event × TryEnd :=
  match response with
  | .reject message => ([], .thrown (.requestFailed message))
  | .resolve result =>
    match getMsg result with
    | .error e => ([], .thrown e)
    | .ok none => ([], .thrown .badFormat)
    | .ok (some msg) =>
      if !truthy (some msg) then ([], .thrown .badFormat)
      else if msg.toStringThrows then ([], .thrown .typeError)
      else if strictEqStr (some msg) "SUCCESS" then
        if retryCount ≥ maxAttempts then
          ([shown taskName msg], .thrown (.maxAttemptsReached maxAttempts))
        else ([shown taskName msg, Event.sleep activityDelay], .recurse)
      else
        match includes (some msg) "maximum" with
        | .error e => ([shown taskName msg], .thrown e)
        | .ok true => ([shown taskName msg], .returned result)
        | .ok false => ([shown taskName msg], .thrown (.activityFailed msg))

/-- What every invocation of `executeActivity` does before the request
settles: it is entered, builds the options and calls `HttpClient.request`. -/
def entry (token taskId taskName : String) (retryCount : Nat) : List Event :=
  [Event.invoke taskId taskName retryCount, Event.request (createOptions token taskId)]

/-- What the `catch` block does before it recurses: the log line and
`Utils.sleep(Config.BASE.retryDelay)`. -/
def beforeRetry (error : Err) : List Event :=
  [Event.log (.retrying error (retryDelay / 1000)) .info, Event.sleep retryDelay]

/-- The recursion of `executeActivity`, with a bound `fuel` on the number of
nested invocations (`none` when the bound is hit). -/
def executeActivityLoop (env : Nat → Response) (token taskId taskName : String) :
    Nat → Nat → Nat → Option (Run Json)
  | 0, _, _ => none
  | fuel + 1, retryCount, k =>
    match tryBlock (env k) taskName retryCount with
    | (evs, .returned result) =>
      some ⟨.ok result, entry token taskId taskName retryCount ++ evs, k + 1⟩
    | (evs, .recurse) =>
      (executeActivityLoop env token taskId taskName fuel (retryCount + 1) (k + 1)).map
        (Run.after (entry token taskId taskName retryCount ++ evs))
    | (evs, .thrown error) =>
      if retryCount < maxRetries then
        (executeActivityLoop env token taskId taskName fuel (retryCount + 1) (k + 1)).map
          (Run.after (entry token taskId taskName retryCount ++ evs ++ beforeRetry error))
      else some ⟨.error error, entry token taskId taskName retryCount ++ evs, k + 1⟩

/-- The method `executeActivity(taskId, taskName, retryCount)`, started when
`k` requests have been made so far.  The bound handed to the recursion is the
measure `maxAttempts - retryCount + 1`. -/
def executeActivity (env : Nat → Response) (token taskId taskName : String)
    (retryCount : Nat) (k : Nat) : Option (Run Json) :=
  executeActivityLoop env token taskId taskName (maxAttempts - retryCount + 1) retryCount k

/-- The method `executeSignIn()`.  (It also sets the static `signInFlag`, which
nothing reads.) -/
def executeSignIn (env : Nat → Response) (token : String) (k : Nat) : Run Json :=
  let sent := [Event.request (createOptions token SIGN_IN)]
  match env k with
  | .reject message => ⟨.error (.requestFailed message), sent, k + 1⟩
  | .resolve result =>
    match getMsg result with
    | .error e => ⟨.error e, sent, k + 1⟩
    | .ok msg =>
      if strictEqStr msg "SUCCESS" then
        ⟨.ok result, sent ++ [Event.log (.text "签到成功！") .info], k + 1⟩
      else
        match includes msg "今日已签到" with
        | .error e => ⟨.error e, sent, k + 1⟩
        | .ok true => ⟨.ok result, sent ++ [Event.log (.text "今日已签到！") .info], k + 1⟩
        | .ok false => ⟨.ok result, sent, k + 1⟩

/-- The log line `开始执行$taskName活动...`. -/
def started (taskName : String) : Event :=
  Event.log (.text ("开始执行" ++ taskName ++ "活动...")) .info

/-- The `catch` block `Utils.log(error.message, 'error')`, run only when the
awaited call rejected. -/
def logCaught {α : Type} : Except Err α → List Event
  | .ok _ => []
  | .error e => [Event.log (.ofError e) .error]

/-- The loop of `executeAllActivities()` over the remaining activities. -/
def executeActivitiesFrom (env : Nat → Response) (token : String) :
    List Activity → Nat → Option (Run Unit)
  | [], k => some ⟨.ok (), [], k⟩
  | activity :: rest, k =>
    match executeActivity env token activity.taskId activity.taskName 0 k with
    | none => none
    | some r =>
      (executeActivitiesFrom env token rest r.next).map
        (Run.after (started activity.taskName :: r.events ++ logCaught r.outcome))

/-- The method `executeAllActivities()`. -/
def executeAllActivities (env : Nat → Response) (token : String) (k : Nat) :
    Option (Run Unit) :=
  executeActivitiesFrom env token ACTIVITIES k

end ActivityExecutor

/-! ## Entry point -/

open ActivityExecutor in
/-- The body of the `for (const token of tokens)` loop of `main`, for one
token: sign in, then all activities, with the surrounding `try`/`catch`. -/
def runToken (env : Nat → Response) (token : String) (k : Nat) : Option (Run Unit) :=
  let s := executeSignIn env token k
  match s.outcome with
  | .error e => some ⟨.ok (), s.events ++ [Event.log (.ofError e) .error], s.next⟩
  | .ok _ =>
    match executeAllActivities env token s.next with
    | none => none
    | some a =>
      match a.outcome with
      | .error e =>
        some ⟨.ok (), s.events ++ a.events ++ [Event.log (.ofError e) .error], a.next⟩
      | .ok _ => some ⟨.ok (), s.events ++ a.events, a.next⟩

/-- The `for (const token of tokens)` loop of `main`. -/
def runTokens (env : Nat → Response) : List String → Nat → Option (Run Unit)
  | [], k => some ⟨.ok (), [], k⟩
  | token :: rest, k =>
    match runToken env token k with
    | none => none
    | some r =>
      match r.outcome with
      | .error e => some ⟨.error e, r.events, r.next⟩
      | .ok _ => (runTokens env rest r.next).map (Run.after r.events)

/-- Segments of `text` between occurrences of `sep`. -/
def splitChars (sep : Char) : List Char → List (List Char)
  | [] => [[]]
  | c :: cs =>
    if c = sep then [] :: splitChars sep cs
    else
      match splitChars sep cs with
      | [] => [[c]]
      | seg :: segs => (c :: seg) :: segs

/-- The method `String.prototype.split` with a one-character separator. -/
def split (s : String) (sep : Char) : List String :=
  (splitChars sep s.data).map String.mk

/-- The expression computing `tokens` in `main`. -/
def tokensOf (authToken : String) : List String :=
  if stringIncludes authToken ";" then split authToken ';' else [authToken]

/-- The function `main()`; `authToken` is `process.env.AUTH_TOKEN` (`none` when
unset).  The result is the list of events of the whole run. -/
def main (env : Nat → Response) (authToken : Option String) : Option (List Event) :=
  let failed (e : Err) : List Event := [Event.log (.ofError e) .error, Event.exit 1]
  match authToken with
  | none => some (failed .missingToken)
  | some tok =>
    if tok = "" then some (failed .missingToken)
    else
      (runTokens env (tokensOf tok) 0).map fun r =>
        match r.outcome with
        | .error e => [Event.log (.text "开始执行签到任务...") .info] ++ r.events ++ failed e
        | .ok _ =>
          [Event.log (.text "开始执行签到任务...") .info] ++ r.events ++
            [Event.log (.text "所有任务执行完成！") .info]

/-! ## Observations on a list of events -/

/-- Is the event a call of `HttpClient.request`? -/
def Event.isRequest : Event → Bool
  | .request _ => true
  | _ => false

/-- Is the event a call of `process.exit`? -/
def Event.isExit : Event → Bool
  | .exit _ => true
  | _ => false

/-- Is the event the log line that announces a retry after a failure? -/
def Event.isRetry : Event → Bool
  | .log (.retrying _ _) _ => true
  | _ => false

/-- Number of calls of `HttpClient.request`. -/
def requestCount (events : List Event) : Nat := events.countP Event.isRequest

/-- Number of retries after a failure. -/
def retries (events : List Event) : Nat := events.countP Event.isRetry

/-- For each retry announcement that is directly followed by a sleep, the
duration of that sleep. -/
def retryDelays : List Event → List Nat
  | [] => []
  | e :: rest =>
    (if e.isRetry then
      match rest with
      | .sleep ms :: _ => [ms]
      | _ => []
    else []) ++ retryDelays rest

/-- The `(taskId, taskName)` of every entry into `executeActivity` with
`retryCount = 0`, in order. -/
def starts (events : List Event) : List (String × String) :=
  events.filterMap fun e =>
    match e with
    | .invoke taskId taskName 0 => some (taskId, taskName)
    | _ => none

/-- The options of every request for the sign-in task, in order. -/
def signInRequests (events : List Event) : List Options :=
  events.filterMap fun e =>
    match e with
    | .request options =>
      if options.path = (HttpClient.createOptions "" Config.TASKS.SIGN_IN).path then some options
      else none
    | _ => none

/-- Does the request resolve with a body whose `msg` is `'SUCCESS'`? -/
def isSuccess : Response → Bool
  | .resolve result =>
    match getMsg result with
    | .ok msg => strictEqStr msg "SUCCESS"
    | .error _ => false
  | .reject _ => false

/-- Is the response a failure: the request rejects, or `msg` is missing or
empty (falsy), or `msg` is not `'SUCCESS'` and `msg.includes('maximum')` is
not true? -/
def isFailure : Response → Bool
  | .reject _ => true
  | .resolve result =>
    match getMsg result with
    | .error _ => true
    | .ok msg =>
      !truthy msg ||
        (!strictEqStr msg "SUCCESS" &&
          match includes msg "maximum" with
          | .ok true => false
          | _ => true)

/-- The error with which the `try` block of `executeActivity` ends. -/
def thrownBy (response : Response) (taskName : String) (retryCount : Nat) : Option Err :=
  match (ActivityExecutor.tryBlock response taskName retryCount).2 with
  | .thrown e => some e
  | _ => none

/-- Does the attempt answered by `response` at `retryCount` lead to another
attempt: the `try` block recurses, or it throws and the `catch` block
retries? -/
def continues (response : Response) (taskName : String) (retryCount : Nat) : Bool :=
  match (ActivityExecutor.tryBlock response taskName retryCount).2 with
  | .recurse => true
  | .thrown _ => decide (retryCount < Config.BASE.maxRetries)
  | .returned _ => false

/-! ## Concrete servers -/

/-- A response with body `{"msg": "SUCCESS"}`. -/
def successResponse : Response := .resolve (.obj [("msg", .str "SUCCESS")])

/-- The server that answers every request with `'SUCCESS'`. -/
def alwaysSuccess : Nat → Response := fun _ => successResponse

/-- The server whose every request fails with a network error. -/
def alwaysDown : Nat → Response := fun _ => .reject "网络请求失败：down"

/-- The server that answers every request with `{"msg": ["maximum"]}`. -/
def arrayMaximum : Nat → Response := fun _ => .resolve (.obj [("msg", .arr [.str "maximum"])])

/-- The server that answers every request with
`{"msg": "maximum limit reached"}`. -/
def limitReached : Nat → Response :=
  fun _ => .resolve (.obj [("msg", .str "maximum limit reached")])

/-- The server that answers the first sixteen requests with `'SUCCESS'` and is
down afterwards. -/
def sixteenSuccessThenDown : Nat → Response :=
  fun i => if i < 16 then successResponse else .reject "网络请求失败：down"

/-- A response whose `msg` is an array that has the element `'maximum'` but
cannot be converted to a string. -/
def unprintableResponse : Response :=
  .resolve (.obj [("msg", .arr [.str "maximum", .obj [("toString", .null)]])])

/-- The server that answers the first three requests with `'SUCCESS'` and all
later ones with `unprintableResponse`. -/
def threeSuccessThenUnprintable : Nat → Response :=
  fun i => if i < 3 then successResponse else unprintableResponse

/-! ## The `try` block -/

namespace ActivityExecutor

open Config Config.BASE Config.TASKS HttpClient

/-- The four ways the `try` block can go. -/
theorem tryBlock_cases (response : Response) (taskName : String) (retryCount : Nat) :
    (∃ e, tryBlock response taskName retryCount = ([], .thrown e)) ∨
    (∃ msg e, tryBlock response taskName retryCount = ([shown taskName msg], .thrown e)) ∨
    (∃ msg, retryCount < maxAttempts ∧ isSuccess response = true ∧
      tryBlock response taskName retryCount
        = ([shown taskName msg, Event.sleep activityDelay], .recurse)) ∨
    (∃ msg result, response = .resolve result ∧ getMsg result = .ok (some msg) ∧
      truthy (some msg) = true ∧ msg.toStringThrows = false ∧
      strictEqStr (some msg) "SUCCESS" = false ∧
      includes (some msg) "maximum" = .ok true ∧
      tryBlock response taskName retryCount = ([shown taskName msg], .returned result)) := by
  cases response with
  | reject message => exact Or.inl ⟨_, rfl⟩
  | resolve result =>
    cases hmsg : getMsg result with
    | error e => exact Or.inl ⟨e, by simp [tryBlock, hmsg]⟩
    | ok v =>
      cases v with
      | none => exact Or.inl ⟨.badFormat, by simp [tryBlock, hmsg]⟩
      | some msg =>
        by_cases ht : truthy (some msg) = true
        · by_cases hs : msg.toStringThrows = true
          · exact Or.inl ⟨.typeError, by simp [tryBlock, hmsg, ht, hs]⟩
          · by_cases hq : strictEqStr (some msg) "SUCCESS" = true
            · by_cases hc : maxAttempts ≤ retryCount
              · exact Or.inr (Or.inl ⟨msg, .maxAttemptsReached maxAttempts,
                  by simp [tryBlock, hmsg, ht, hs, hq, hc]⟩)
              · refine Or.inr (Or.inr (Or.inl ⟨msg, by omega, ?_, ?_⟩))
                · simp [isSuccess, hmsg, hq]
                · simp [tryBlock, hmsg, ht, hs, hq, hc]
            · cases hi : includes (some msg) "maximum" with
              | error e =>
                exact Or.inr (Or.inl ⟨msg, e, by simp [tryBlock, hmsg, ht, hs, hq, hi]⟩)
              | ok b =>
                cases b with
                | false =>
                  exact Or.inr (Or.inl ⟨msg, .activityFailed msg,
                    by simp [tryBlock, hmsg, ht, hs, hq, hi]⟩)
                | true =>
                  refine Or.inr (Or.inr (Or.inr
                    ⟨msg, result, rfl, hmsg, ht, ?_, ?_, hi, ?_⟩))
                  · simpa using hs
                  · simpa using hq
                  · simp [tryBlock, hmsg, ht, hs, hq, hi]
        · exact Or.inl ⟨.badFormat, by simp [tryBlock, hmsg, ht]⟩

end ActivityExecutor

/-! ### Inversion of the `try` block -/

namespace ActivityExecutor

open Config Config.BASE Config.TASKS HttpClient

theorem tryBlock_recurse_inv {response : Response} {taskName : String} {retryCount : Nat}
    {evs : List Event} (h : tryBlock response taskName retryCount = (evs, .recurse)) :
    retryCount < maxAttempts ∧ isSuccess response = true ∧
      ∃ msg, evs = [shown taskName msg, Event.sleep activityDelay] := by
  rcases tryBlock_cases response taskName retryCount with ⟨e, ht⟩ | ⟨msg, e, ht⟩ |
    ⟨msg, hlt, hs, ht⟩ | ⟨msg, result, -, -, -, -, -, -, ht⟩
  · rw [ht] at h; simp at h
  · rw [ht] at h; simp at h
  · rw [ht] at h
    simp only [Prod.mk.injEq, and_true] at h
    exact ⟨hlt, hs, msg, h.symm⟩
  · rw [ht] at h; simp at h

theorem tryBlock_thrown_inv {response : Response} {taskName : String} {retryCount : Nat}
    {evs : List Event} {e : Err} (h : tryBlock response taskName retryCount = (evs, .thrown e)) :
    evs = [] ∨ ∃ msg, evs = [shown taskName msg] := by
  rcases tryBlock_cases response taskName retryCount with ⟨e1, ht⟩ | ⟨msg, e1, ht⟩ |
    ⟨msg, hlt, hs, ht⟩ | ⟨msg, result, -, -, -, -, -, -, ht⟩
  · rw [ht] at h
    simp only [Prod.mk.injEq] at h
    exact Or.inl h.1.symm
  · rw [ht] at h
    simp only [Prod.mk.injEq] at h
    exact Or.inr ⟨msg, h.1.symm⟩
  · rw [ht] at h; simp at h
  · rw [ht] at h; simp at h

theorem tryBlock_returned_inv {response : Response} {taskName : String} {retryCount : Nat}
    {evs : List Event} {result : Json}
    (h : tryBlock response taskName retryCount = (evs, .returned result)) :
    response = .resolve result ∧
      ∃ msg, evs = [shown taskName msg] ∧ getMsg result = .ok (some msg) ∧
        truthy (some msg) = true ∧ msg.toStringThrows = false ∧
        strictEqStr (some msg) "SUCCESS" = false ∧
        includes (some msg) "maximum" = .ok true := by
  rcases tryBlock_cases response taskName retryCount with ⟨e1, ht⟩ | ⟨msg, e1, ht⟩ |
    ⟨msg, hlt, hs, ht⟩ | ⟨msg, result1, hres, hm, htr, hts, hq, hi, ht⟩
  · rw [ht] at h; simp at h
  · rw [ht] at h; simp at h
  · rw [ht] at h; simp at h
  · rw [ht] at h
    simp only [Prod.mk.injEq, TryEnd.returned.injEq] at h
    obtain ⟨h1, h2⟩ := h
    subst h2
    exact ⟨hres, msg, h1.symm, hm, htr, hts, hq, hi⟩

end ActivityExecutor

/-! ## The recursion of `executeActivity` -/

namespace ActivityExecutor

open Config Config.BASE Config.TASKS HttpClient

section Loop

variable (env : Nat → Response) (token taskId taskName : String)

/-- One invocation, unfolded. -/
theorem loop_succ (fuel retryCount k : Nat) :
    executeActivityLoop env token taskId taskName (fuel + 1) retryCount k =
      match tryBlock (env k) taskName retryCount with
      | (evs, .returned result) =>
        some ⟨.ok result, entry token taskId taskName retryCount ++ evs, k + 1⟩
      | (evs, .recurse) =>
        (executeActivityLoop env token taskId taskName fuel (retryCount + 1) (k + 1)).map
          (Run.after (entry token taskId taskName retryCount ++ evs))
      | (evs, .thrown error) =>
        if retryCount < maxRetries then
          (executeActivityLoop env token taskId taskName fuel (retryCount + 1) (k + 1)).map
            (Run.after (entry token taskId taskName retryCount ++ evs ++ beforeRetry error))
        else some ⟨.error error, entry token taskId taskName retryCount ++ evs, k + 1⟩ := by
  rw [executeActivityLoop]

theorem loop_returned {fuel retryCount k : Nat} {evs : List Event} {result : Json}
    (h : tryBlock (env k) taskName retryCount = (evs, .returned result)) :
    executeActivityLoop env token taskId taskName (fuel + 1) retryCount k =
      some ⟨.ok result, entry token taskId taskName retryCount ++ evs, k + 1⟩ := by
  rw [loop_succ, h]

theorem loop_recurse {fuel retryCount k : Nat} {evs : List Event}
    (h : tryBlock (env k) taskName retryCount = (evs, .recurse)) :
    executeActivityLoop env token taskId taskName (fuel + 1) retryCount k =
      (executeActivityLoop env token taskId taskName fuel (retryCount + 1) (k + 1)).map
        (Run.after (entry token taskId taskName retryCount ++ evs)) := by
  rw [loop_succ, h]

theorem loop_retry {fuel retryCount k : Nat} {evs : List Event} {e : Err}
    (h : tryBlock (env k) taskName retryCount = (evs, .thrown e))
    (hlt : retryCount < maxRetries) :
    executeActivityLoop env token taskId taskName (fuel + 1) retryCount k =
      (executeActivityLoop env token taskId taskName fuel (retryCount + 1) (k + 1)).map
        (Run.after (entry token taskId taskName retryCount ++ evs ++ beforeRetry e)) := by
  rw [loop_succ, h]; simp [hlt]

theorem loop_thrown {fuel retryCount k : Nat} {evs : List Event} {e : Err}
    (h : tryBlock (env k) taskName retryCount = (evs, .thrown e))
    (hge : ¬ retryCount < maxRetries) :
    executeActivityLoop env token taskId taskName (fuel + 1) retryCount k =
      some ⟨.error e, entry token taskId taskName retryCount ++ evs, k + 1⟩ := by
  rw [loop_succ, h]; simp [hge]

/-- Induction over the invocations of a finished call. -/
theorem loop_induct {P : Nat → Nat → Run Json → Prop}
    (returned : ∀ rc k evs result, tryBlock (env k) taskName rc = (evs, .returned result) →
      P rc k ⟨.ok result, entry token taskId taskName rc ++ evs, k + 1⟩)
    (recurse : ∀ rc k evs r, tryBlock (env k) taskName rc = (evs, .recurse) →
      P (rc + 1) (k + 1) r → P rc k (r.after (entry token taskId taskName rc ++ evs)))
    (retry : ∀ rc k evs e r, tryBlock (env k) taskName rc = (evs, .thrown e) →
      rc < maxRetries → P (rc + 1) (k + 1) r →
      P rc k (r.after (entry token taskId taskName rc ++ evs ++ beforeRetry e)))
    (thrown : ∀ rc k evs e, tryBlock (env k) taskName rc = (evs, .thrown e) →
      ¬ rc < maxRetries → P rc k ⟨.error e, entry token taskId taskName rc ++ evs, k + 1⟩) :
    ∀ fuel rc k r, executeActivityLoop env token taskId taskName fuel rc k = some r →
      P rc k r := by
  intro fuel
  induction fuel with
  | zero => intro rc k r h; simp [executeActivityLoop] at h
  | succ fuel ih =>
    intro rc k r h
    rcases ht : tryBlock (env k) taskName rc with ⟨evs, fin⟩
    cases fin with
    | returned result =>
      rw [loop_returned env token taskId taskName ht] at h
      cases h
      exact returned rc k evs result ht
    | recurse =>
      rw [loop_recurse env token taskId taskName ht] at h
      cases hr : executeActivityLoop env token taskId taskName fuel (rc + 1) (k + 1) with
      | none => simp [hr] at h
      | some r1 =>
        simp [hr] at h
        subst h
        exact recurse rc k evs r1 ht (ih _ _ _ hr)
    | thrown e =>
      by_cases hlt : rc < maxRetries
      · rw [loop_retry env token taskId taskName ht hlt] at h
        cases hr : executeActivityLoop env token taskId taskName fuel (rc + 1) (k + 1) with
        | none => simp [hr] at h
        | some r1 =>
          simp [hr] at h
          subst h
          exact retry rc k evs e r1 ht hlt (ih _ _ _ hr)
      · rw [loop_thrown env token taskId taskName ht hlt] at h
        cases h
        exact thrown rc k evs e ht hlt

/-- The recursion finishes within `maxAttempts - retryCount + 1` invocations. -/
theorem loop_total : ∀ fuel rc k, maxAttempts - rc + 1 ≤ fuel →
    ∃ r, executeActivityLoop env token taskId taskName fuel rc k = some r := by
  intro fuel
  induction fuel with
  | zero => intro rc k h; omega
  | succ fuel ih =>
    intro rc k h
    rcases tryBlock_cases (env k) taskName rc with ⟨e, ht⟩ | ⟨msg, e, ht⟩ | ⟨msg, hlt, -, ht⟩ |
      ⟨msg, result, -, -, -, -, -, -, ht⟩
    · by_cases hlt : rc < maxRetries
      · rw [loop_retry env token taskId taskName ht hlt]
        have : maxAttempts - (rc + 1) + 1 ≤ fuel := by
          simp only [maxRetries, maxAttempts] at *; omega
        obtain ⟨r, hr⟩ := ih (rc + 1) (k + 1) this
        exact ⟨_, by rw [hr]; rfl⟩
      · exact ⟨_, loop_thrown env token taskId taskName ht hlt⟩
    · by_cases hlt : rc < maxRetries
      · rw [loop_retry env token taskId taskName ht hlt]
        have : maxAttempts - (rc + 1) + 1 ≤ fuel := by
          simp only [maxRetries, maxAttempts] at *; omega
        obtain ⟨r, hr⟩ := ih (rc + 1) (k + 1) this
        exact ⟨_, by rw [hr]; rfl⟩
      · exact ⟨_, loop_thrown env token taskId taskName ht hlt⟩
    · rw [loop_recurse env token taskId taskName ht]
      have : maxAttempts - (rc + 1) + 1 ≤ fuel := by
        simp only [maxAttempts] at *; omega
      obtain ⟨r, hr⟩ := ih (rc + 1) (k + 1) this
      exact ⟨_, by rw [hr]; rfl⟩
    · exact ⟨_, loop_returned env token taskId taskName ht⟩

/-- A finished call does not depend on the bound. -/
theorem loop_mono : ∀ fuel rc k r,
    executeActivityLoop env token taskId taskName fuel rc k = some r →
    ∀ fuel2, fuel ≤ fuel2 → executeActivityLoop env token taskId taskName fuel2 rc k = some r := by
  intro fuel
  induction fuel with
  | zero => intro rc k r h; simp [executeActivityLoop] at h
  | succ fuel ih =>
    intro rc k r h fuel2 hle
    obtain ⟨f2, rfl⟩ : ∃ f2, fuel2 = f2 + 1 := ⟨fuel2 - 1, by omega⟩
    have hle2 : fuel ≤ f2 := by omega
    rcases ht : tryBlock (env k) taskName rc with ⟨evs, fin⟩
    cases fin with
    | returned result =>
      rw [loop_returned env token taskId taskName ht] at h ⊢
      exact h
    | recurse =>
      rw [loop_recurse env token taskId taskName ht] at h ⊢
      cases hr : executeActivityLoop env token taskId taskName fuel (rc + 1) (k + 1) with
      | none => simp [hr] at h
      | some r1 =>
        rw [ih _ _ _ hr f2 hle2]
        rw [hr] at h
        exact h
    | thrown e =>
      by_cases hlt : rc < maxRetries
      · rw [loop_retry env token taskId taskName ht hlt] at h ⊢
        cases hr : executeActivityLoop env token taskId taskName fuel (rc + 1) (k + 1) with
        | none => simp [hr] at h
        | some r1 =>
          rw [ih _ _ _ hr f2 hle2]
          rw [hr] at h
          exact h
      · rw [loop_thrown env token taskId taskName ht hlt] at h ⊢
        exact h

/-- Requests of a finished call: one per consumed response, at least one, at
most `maxAttempts - retryCount + 1`. -/
theorem loop_requests : ∀ fuel rc k r,
    executeActivityLoop env token taskId taskName fuel rc k = some r →
    r.next = k + requestCount r.events ∧ 1 ≤ requestCount r.events ∧
      requestCount r.events ≤ maxAttempts - rc + 1 := by
  apply loop_induct
  · intro rc k evs result ht
    obtain ⟨-, msg, rfl, -⟩ := tryBlock_returned_inv ht
    simp [requestCount, entry, shown, Event.isRequest]
  · intro rc k evs r ht ih
    obtain ⟨hlt, -, msg, rfl⟩ := tryBlock_recurse_inv ht
    simp only [maxAttempts] at hlt ih ⊢
    simp [requestCount, entry, shown, Event.isRequest, Run.after, List.countP_cons] at ih ⊢
    omega
  · intro rc k evs e r ht hlt ih
    simp only [maxAttempts, maxRetries] at hlt ih ⊢
    rcases tryBlock_thrown_inv ht with rfl | ⟨msg, rfl⟩ <;>
    · simp [requestCount, entry, shown, beforeRetry, Event.isRequest, Run.after,
        List.countP_cons] at ih ⊢
      omega
  · intro rc k evs e ht hlt
    rcases tryBlock_thrown_inv ht with rfl | ⟨msg, rfl⟩ <;>
      simp [requestCount, entry, shown, Event.isRequest]

/-- Retries of a finished call: at most `maxRetries - retryCount`, and each
announcement is directly followed by a sleep of `retryDelay`. -/
theorem loop_retries : ∀ fuel rc k r,
    executeActivityLoop env token taskId taskName fuel rc k = some r →
    retries r.events ≤ maxRetries - rc ∧
      retryDelays r.events = List.replicate (retries r.events) retryDelay := by
  apply loop_induct
  · intro rc k evs result ht
    obtain ⟨-, msg, rfl, -⟩ := tryBlock_returned_inv ht
    simp [retries, retryDelays, entry, shown, Event.isRetry]
  · intro rc k evs r ht ih
    obtain ⟨hlt, -, msg, rfl⟩ := tryBlock_recurse_inv ht
    obtain ⟨ih1, ih2⟩ := ih
    simp only [maxRetries] at ih1 ⊢
    simp [retries, retryDelays, entry, shown, Event.isRetry, Run.after, List.countP_cons]
      at ih1 ih2 ⊢
    exact ⟨by omega, ih2⟩
  · intro rc k evs e r ht hlt ih
    obtain ⟨ih1, ih2⟩ := ih
    simp only [maxRetries] at hlt ih1 ⊢
    rcases tryBlock_thrown_inv ht with rfl | ⟨msg, rfl⟩ <;>
    · simp [retries, retryDelays, entry, shown, beforeRetry, Event.isRetry, Run.after,
        List.countP_cons, List.replicate_succ] at ih1 ih2 ⊢
      exact ⟨by omega, ih2⟩
  · intro rc k evs e ht hlt
    rcases tryBlock_thrown_inv ht with rfl | ⟨msg, rfl⟩ <;>
      simp [retries, retryDelays, entry, shown, Event.isRetry]

/-- Entries with `retryCount = 0` of a finished call: its own, if it was
started with 0. -/
theorem loop_starts : ∀ fuel rc k r,
    executeActivityLoop env token taskId taskName fuel rc k = some r →
    starts r.events = if rc = 0 then [(taskId, taskName)] else [] := by
  apply loop_induct
  · intro rc k evs result ht
    obtain ⟨-, msg, rfl, -⟩ := tryBlock_returned_inv ht
    cases rc <;> simp [starts, entry, shown]
  · intro rc k evs r ht ih
    obtain ⟨hlt, -, msg, rfl⟩ := tryBlock_recurse_inv ht
    cases rc <;> simp [starts, entry, shown, Run.after, List.filterMap_append] at ih ⊢ <;>
      exact ih
  · intro rc k evs e r ht hlt ih
    rcases tryBlock_thrown_inv ht with rfl | ⟨msg, rfl⟩ <;>
      cases rc <;>
      simp [starts, entry, shown, beforeRetry, Run.after, List.filterMap_append] at ih ⊢ <;>
      exact ih
  · intro rc k evs e ht hlt
    rcases tryBlock_thrown_inv ht with rfl | ⟨msg, rfl⟩ <;>
      cases rc <;> simp [starts, entry, shown]

/-- A finished call never calls `process.exit`. -/
theorem loop_no_exit : ∀ fuel rc k r,
    executeActivityLoop env token taskId taskName fuel rc k = some r →
    r.events.any Event.isExit = false := by
  apply loop_induct
  · intro rc k evs result ht
    obtain ⟨-, msg, rfl, -⟩ := tryBlock_returned_inv ht
    simp [entry, shown, Event.isExit]
  · intro rc k evs r ht ih
    obtain ⟨hlt, -, msg, rfl⟩ := tryBlock_recurse_inv ht
    rw [Run.after, List.any_append, ih]
    simp [entry, shown, Event.isExit]
  · intro rc k evs e r ht hlt ih
    rw [Run.after, List.any_append, ih]
    rcases tryBlock_thrown_inv ht with rfl | ⟨msg, rfl⟩ <;>
      simp [entry, shown, beforeRetry, Event.isExit]
  · intro rc k evs e ht hlt
    rcases tryBlock_thrown_inv ht with rfl | ⟨msg, rfl⟩ <;>
      simp [entry, shown, Event.isExit]

/-- A finished call for a task other than the sign-in task makes no sign-in
request. -/
theorem loop_no_signIn
    (hid : (createOptions token taskId).path ≠ (createOptions "" SIGN_IN).path) :
    ∀ fuel rc k r,
    executeActivityLoop env token taskId taskName fuel rc k = some r →
    signInRequests r.events = [] := by
  apply loop_induct
  · intro rc k evs result ht
    obtain ⟨-, msg, rfl, -⟩ := tryBlock_returned_inv ht
    simp [signInRequests, entry, shown, hid]
  · intro rc k evs r ht ih
    obtain ⟨hlt, -, msg, rfl⟩ := tryBlock_recurse_inv ht
    simp [signInRequests, entry, shown, Run.after, List.filterMap_append, hid] at ih ⊢
    exact ih
  · intro rc k evs e r ht hlt ih
    rcases tryBlock_thrown_inv ht with rfl | ⟨msg, rfl⟩ <;>
    · simp [signInRequests, entry, shown, beforeRetry, Run.after, List.filterMap_append, hid]
        at ih ⊢
      exact ih
  · intro rc k evs e ht hlt
    rcases tryBlock_thrown_inv ht with rfl | ⟨msg, rfl⟩ <;>
      simp [signInRequests, entry, shown, hid]

/-- A call that resolves returns the last response it received, and the `msg`
of that response passed the `includes('maximum')` test. -/
theorem loop_resolved : ∀ fuel rc k r,
    executeActivityLoop env token taskId taskName fuel rc k = some r →
    ∀ result, r.outcome = .ok result →
      k < r.next ∧ env (r.next - 1) = .resolve result ∧
      ∃ msg, getMsg result = .ok (some msg) ∧ truthy (some msg) = true ∧
        msg.toStringThrows = false ∧ strictEqStr (some msg) "SUCCESS" = false ∧
        includes (some msg) "maximum" = .ok true := by
  apply loop_induct
  · intro rc k evs result ht result1 h
    obtain ⟨hres, msg, -, hrest⟩ := tryBlock_returned_inv ht
    cases h
    exact ⟨by simp, by simpa using hres, msg, hrest⟩
  · intro rc k evs r ht ih result h
    obtain ⟨h1, h2⟩ := ih result h
    exact ⟨by simp only [Run.after]; omega, h2⟩
  · intro rc k evs e r ht hlt ih result h
    obtain ⟨h1, h2⟩ := ih result h
    exact ⟨by simp only [Run.after]; omega, h2⟩
  · intro rc k evs e ht hlt result h
    cases h

/-- Composition of two `Run.after` under `Option.map`. -/
theorem map_after_after {α : Type} (a b : List Event) (x : Option (Run α)) :
    (x.map (Run.after b)).map (Run.after a) = x.map (Run.after (a ++ b)) := by
  cases x <;> simp [Run.after, List.append_assoc]

theorem requestCount_after {α : Type} (pre : List Event) (r : Run α) :
    requestCount (Run.after pre r).events = requestCount pre + requestCount r.events := by
  simp [Run.after, requestCount]

theorem retries_after {α : Type} (pre : List Event) (r : Run α) :
    retries (Run.after pre r).events = retries pre + retries r.events := by
  simp [Run.after, retries]

theorem map_after_nil {α : Type} (x : Option (Run α)) : x.map (Run.after []) = x := by
  cases x <;> simp [Run.after]

end Loop

theorem strictEqStr_eq {v : Value} {s : String} (h : strictEqStr v s = true) :
    v = some (.str s) := by
  cases v with
  | none => simp [strictEqStr] at h
  | some j =>
    cases j <;> simp [strictEqStr] at h
    rw [h]

/-- What the `try` block does with a `'SUCCESS'` response. -/
theorem tryBlock_of_isSuccess {response : Response} (taskName : String) (retryCount : Nat)
    (h : isSuccess response = true) :
    tryBlock response taskName retryCount =
      if maxAttempts ≤ retryCount then
        ([shown taskName (.str "SUCCESS")], .thrown (.maxAttemptsReached maxAttempts))
      else ([shown taskName (.str "SUCCESS"), Event.sleep activityDelay], .recurse) := by
  cases response with
  | reject m => simp [isSuccess] at h
  | resolve result =>
    cases hm : getMsg result with
    | error e => simp [isSuccess, hm] at h
    | ok v =>
      simp only [isSuccess, hm] at h
      have hv := strictEqStr_eq h
      subst hv
      have ht : truthy (some (Json.str "SUCCESS")) = true := by decide
      have hs : (Json.str "SUCCESS").toStringThrows = false := by
        simp [Json.toStringThrows]
      simp [tryBlock, hm, ht, hs, h]

/-- A failure response makes the `try` block throw. -/
theorem tryBlock_of_isFailure {response : Response} (taskName : String) (retryCount : Nat)
    (h : isFailure response = true) :
    ∃ evs e, tryBlock response taskName retryCount = (evs, .thrown e) := by
  rcases tryBlock_cases response taskName retryCount with ⟨e, ht⟩ | ⟨msg, e, ht⟩ |
    ⟨msg, hlt, hs, ht⟩ | ⟨msg, result, hres, hm, htr, hts, hq, hi, ht⟩
  · exact ⟨_, _, ht⟩
  · exact ⟨_, _, ht⟩
  · exfalso
    cases response with
    | reject m => simp [isSuccess] at hs
    | resolve result =>
      cases hm : getMsg result with
      | error e => simp [isSuccess, hm] at hs
      | ok v =>
        simp only [isSuccess, hm] at hs
        have hv := strictEqStr_eq hs
        subst hv
        simp [isFailure, hm, truthy, strictEqStr] at h
  · exfalso
    subst hres
    simp [isFailure, hm, htr, hi] at h

theorem isSuccess_not_isFailure {response : Response} (h : isSuccess response = true) :
    isFailure response = false := by
  cases response with
  | reject m => simp [isSuccess] at h
  | resolve result =>
    cases hm : getMsg result with
    | error e => simp [isSuccess, hm] at h
    | ok v =>
      simp only [isSuccess, hm] at h
      have hv := strictEqStr_eq h
      subst hv
      simp [isFailure, hm, truthy, strictEqStr]

section Skip

variable (env : Nat → Response) (token taskId taskName : String)

theorem thrownBy_eq {response : Response} {taskName : String} {retryCount : Nat} {e : Err}
    (h : thrownBy response taskName retryCount = some e) :
    ∃ evs, tryBlock response taskName retryCount = (evs, .thrown e) := by
  rcases ht : tryBlock response taskName retryCount with ⟨evs, fin⟩
  cases fin with
  | returned result => simp [thrownBy, ht] at h
  | recurse => simp [thrownBy, ht] at h
  | thrown e1 =>
    have : e1 = e := by simpa [thrownBy, ht] using h
    subst this
    exact ⟨evs, rfl⟩

theorem continues_of_isFailure {response : Response} (taskName : String) {retryCount : Nat}
    (h : isFailure response = true) (hlt : retryCount < maxRetries) :
    continues response taskName retryCount = true := by
  obtain ⟨evs, e, ht⟩ := tryBlock_of_isFailure taskName retryCount h
  simp [continues, ht, hlt]

theorem continues_of_isSuccess {response : Response} (taskName : String) {retryCount : Nat}
    (h : isSuccess response = true) (hlt : retryCount < maxAttempts) :
    continues response taskName retryCount = true := by
  have ht := tryBlock_of_isSuccess taskName retryCount h
  rw [if_neg (by omega)] at ht
  simp [continues, ht]

/-- While the attempts continue, the call is the call started after them. -/
theorem loop_skip : ∀ n rc k fuel,
    (∀ i, i < n → continues (env (k + i)) taskName (rc + i) = true) →
    ∃ pre, requestCount pre = n ∧
      ((∀ i, i < n → isFailure (env (k + i)) = true) → retries pre = n) ∧
      ((∀ i, i < n → isSuccess (env (k + i)) = true) → retries pre = 0) ∧
      executeActivityLoop env token taskId taskName (fuel + n) rc k =
        (executeActivityLoop env token taskId taskName fuel (rc + n) (k + n)).map
          (Run.after pre) := by
  intro n
  induction n with
  | zero =>
    intro rc k fuel _
    exact ⟨[], rfl, fun _ => rfl, fun _ => rfl, by simp [map_after_nil]⟩
  | succ n ih =>
    intro rc k fuel h
    have h0 : continues (env k) taskName rc = true := by simpa using h 0 (by omega)
    have hrest : ∀ i, i < n → continues (env (k + 1 + i)) taskName (rc + 1 + i) = true := by
      intro i hi
      have := h (i + 1) (by omega)
      rwa [show k + (i + 1) = k + 1 + i by omega, show rc + (i + 1) = rc + 1 + i by omega]
        at this
    obtain ⟨pre, hpre, hfail, hsucc, hloop⟩ := ih (rc + 1) (k + 1) fuel hrest
    rw [show rc + 1 + n = rc + (n + 1) by omega, show k + 1 + n = k + (n + 1) by omega] at hloop
    rw [show fuel + (n + 1) = (fuel + n) + 1 by omega]
    have shift : ∀ {q : Response → Bool}, (∀ i, i < n + 1 → q (env (k + i)) = true) →
        (∀ i, i < n → q (env (k + 1 + i)) = true) := by
      intro q hq i hi
      have := hq (i + 1) (by omega)
      rwa [show k + (i + 1) = k + 1 + i by omega] at this
    rcases ht : tryBlock (env k) taskName rc with ⟨evs, fin⟩
    cases fin with
    | returned result => simp [continues, ht] at h0
    | recurse =>
      obtain ⟨-, hs, msg, rfl⟩ := tryBlock_recurse_inv ht
      have hf := isSuccess_not_isFailure hs
      rw [loop_recurse env token taskId taskName ht, hloop, map_after_after]
      refine ⟨_, ?_, ?_, ?_, rfl⟩
      · simp [requestCount, entry, shown, Event.isRequest, List.countP_cons] at hpre ⊢
        omega
      · intro hall
        have := hall 0 (by omega)
        simp [hf] at this
      · intro hall
        have := hsucc (shift hall)
        simp [retries, entry, shown, Event.isRetry, List.countP_cons] at this ⊢
        exact this
    | thrown e =>
      have hlt : rc < maxRetries := by simpa [continues, ht] using h0
      rw [loop_retry env token taskId taskName ht hlt, hloop, map_after_after]
      refine ⟨_, ?_, ?_, ?_, rfl⟩
      · rcases tryBlock_thrown_inv ht with rfl | ⟨msg, rfl⟩ <;>
        · simp [requestCount, entry, shown, beforeRetry, Event.isRequest, List.countP_cons]
            at hpre ⊢
          omega
      · intro hall
        have := hfail (shift hall)
        rcases tryBlock_thrown_inv ht with rfl | ⟨msg, rfl⟩ <;>
        · simp [retries, entry, shown, beforeRetry, Event.isRetry, List.countP_cons] at this ⊢
          omega
      · intro hall
        have hs := hall 0 (by omega)
        have ht2 := tryBlock_of_isSuccess taskName rc (by simpa using hs)
        rw [if_neg (by simp only [maxAttempts, maxRetries] at hlt ⊢; omega)] at ht2
        rw [ht2] at ht
        simp at ht

end Skip



end ActivityExecutor

/-! ## Sign-in, the activity loop and the token loop -/

theorem append_left_cancel_string {a x y : String} (h : a ++ x = a ++ y) : x = y := by
  have := congrArg String.data h
  simp only [String.data_append, List.append_cancel_left_eq] at this
  exact String.ext this

section Tokens

open Config Config.BASE Config.TASKS HttpClient ActivityExecutor

variable (env : Nat → Response) (token : String)

theorem starts_append (a b : List Event) : starts (a ++ b) = starts a ++ starts b := by
  simp [starts, List.filterMap_append]

theorem signInRequests_append (a b : List Event) :
    signInRequests (a ++ b) = signInRequests a ++ signInRequests b := by
  simp [signInRequests, List.filterMap_append]

theorem requestCount_append (a b : List Event) :
    requestCount (a ++ b) = requestCount a + requestCount b := by
  simp [requestCount]

theorem starts_started (n : String) (l : List Event) :
    starts (ActivityExecutor.started n :: l) = starts l := rfl

theorem signInRequests_started (n : String) (l : List Event) :
    signInRequests (ActivityExecutor.started n :: l) = signInRequests l := rfl

theorem logCaught_quiet {α : Type} (o : Except Err α) :
    starts (logCaught o) = [] ∧ signInRequests (logCaught o) = [] ∧
      requestCount (logCaught o) = 0 ∧ (logCaught o).any Event.isExit = false := by
  cases o <;> simp [logCaught, starts, signInRequests, requestCount, Event.isExit,
    Event.isRequest]

/-- The shape of a sign-in: its request, then at most one log line. -/
theorem executeSignIn_events (k : Nat) :
    (executeSignIn env token k).next = k + 1 ∧
    ∃ logs, (executeSignIn env token k).events
        = Event.request (createOptions token SIGN_IN) :: logs ∧
      (logs = [] ∨ ∃ s, logs = [Event.log (.text s) .info]) := by
  cases hr : env k with
  | reject m =>
    exact ⟨by simp [executeSignIn, hr], [], by simp [executeSignIn, hr], Or.inl rfl⟩
  | resolve result =>
    cases hm : getMsg result with
    | error e =>
      exact ⟨by simp [executeSignIn, hr, hm], [], by simp [executeSignIn, hr, hm], Or.inl rfl⟩
    | ok msg =>
      by_cases hs : strictEqStr msg "SUCCESS" = true
      · exact ⟨by simp [executeSignIn, hr, hm, hs], [Event.log (.text "签到成功！") .info],
          by simp [executeSignIn, hr, hm, hs], Or.inr ⟨_, rfl⟩⟩
      · cases hi : includes msg "今日已签到" with
        | error e =>
          exact ⟨by simp [executeSignIn, hr, hm, hs, hi], [],
            by simp [executeSignIn, hr, hm, hs, hi], Or.inl rfl⟩
        | ok b =>
          cases b with
          | true =>
            exact ⟨by simp [executeSignIn, hr, hm, hs, hi],
              [Event.log (.text "今日已签到！") .info],
              by simp [executeSignIn, hr, hm, hs, hi], Or.inr ⟨_, rfl⟩⟩
          | false =>
            exact ⟨by simp [executeSignIn, hr, hm, hs, hi], [],
              by simp [executeSignIn, hr, hm, hs, hi], Or.inl rfl⟩

/-- Observations on the events of a sign-in. -/
theorem executeSignIn_observed (k : Nat) :
    requestCount (executeSignIn env token k).events = 1 ∧
    signInRequests (executeSignIn env token k).events = [createOptions token SIGN_IN] ∧
    starts (executeSignIn env token k).events = [] ∧
    (executeSignIn env token k).events.any Event.isExit = false := by
  obtain ⟨-, logs, hev, hl⟩ := executeSignIn_events env token k
  rw [hev]
  rcases hl with rfl | ⟨s, rfl⟩ <;>
    simp [requestCount, signInRequests, starts, Event.isRequest, Event.isExit, createOptions]

/-- No activity has the task id of the sign-in task. -/
theorem activity_path_ne : ∀ a ∈ ACTIVITIES,
    (createOptions token a.taskId).path ≠ (createOptions "" SIGN_IN).path := by
  have key : ∀ a ∈ ACTIVITIES, a.taskId ≠ SIGN_IN := by decide
  intro a ha hp
  exact key a ha (append_left_cancel_string hp)

/-- The activity loop always finishes, never rejects, and enters each of its
activities once with `retryCount = 0`, in order. -/
theorem executeActivitiesFrom_spec (acts : List Activity) : ∀ k,
    ∃ r, executeActivitiesFrom env token acts k = some r ∧ r.outcome = .ok () ∧
      starts r.events = acts.map (fun a => (a.taskId, a.taskName)) ∧
      r.events.any Event.isExit = false ∧
      ((∀ a ∈ acts, (createOptions token a.taskId).path ≠ (createOptions "" SIGN_IN).path) →
        signInRequests r.events = []) := by
  induction acts with
  | nil => intro k; exact ⟨_, rfl, rfl, rfl, rfl, fun _ => rfl⟩
  | cons a rest ih =>
    intro k
    obtain ⟨ra, hra⟩ := loop_total env token a.taskId a.taskName (maxAttempts - 0 + 1) 0 k
      (le_refl _)
    have hra2 : executeActivity env token a.taskId a.taskName 0 k = some ra := hra
    obtain ⟨rr, hrr, hok, hst, hex, hsi⟩ := ih ra.next
    have hs1 := loop_starts env token a.taskId a.taskName _ _ _ _ hra
    have he1 := loop_no_exit env token a.taskId a.taskName _ _ _ _ hra
    obtain ⟨q1, q2, -, q4⟩ := logCaught_quiet ra.outcome
    refine ⟨Run.after (started a.taskName :: ra.events ++ logCaught ra.outcome) rr,
      by simp only [executeActivitiesFrom, hra2, hrr, Option.map_some'], hok, ?_, ?_, ?_⟩
    · simp only [Run.after, List.cons_append]
      rw [starts_started, starts_append, starts_append, hs1, q1, hst]
      rfl
    · simp only [Run.after, List.cons_append]
      rw [List.any_cons, List.any_append, List.any_append, he1, q4, hex]
      rfl
    · intro hall
      have h1 := loop_no_signIn env token a.taskId a.taskName
        (hall a (List.mem_cons_self _ _)) _ _ _ _ hra
      have h2 := hsi (fun b hb => hall b (List.mem_cons_of_mem _ hb))
      simp only [Run.after, List.cons_append]
      rw [signInRequests_started, signInRequests_append, signInRequests_append, h1, q2, h2]
      rfl

/-- One round of the token loop always finishes without rejecting; it makes
exactly one sign-in request, and enters the activities exactly when the
sign-in did not throw. -/
theorem runToken_spec (k : Nat) :
    ∃ r, runToken env token k = some r ∧ r.outcome = .ok () ∧
      signInRequests r.events = [createOptions token SIGN_IN] ∧
      r.events.any Event.isExit = false ∧
      ((∃ result, (executeSignIn env token k).outcome = .ok result) →
        starts r.events = ACTIVITIES.map (fun a => (a.taskId, a.taskName))) ∧
      ((∃ e, (executeSignIn env token k).outcome = .error e) →
        starts r.events = [] ∧ requestCount r.events = 1) := by
  obtain ⟨o1, o2, o3, o4⟩ := executeSignIn_observed env token k
  cases hout : (executeSignIn env token k).outcome with
  | error e =>
    refine ⟨⟨.ok (), (executeSignIn env token k).events ++ [Event.log (.ofError e) .error],
      (executeSignIn env token k).next⟩, by simp only [runToken, hout], rfl, ?_, ?_, ?_, ?_⟩
    · show signInRequests (_ ++ _) = _
      rw [signInRequests_append, o2]; rfl
    · show List.any (_ ++ _) _ = _
      rw [List.any_append, o4]; rfl
    · rintro ⟨result, h⟩; cases h
    · intro _
      constructor
      · show starts (_ ++ _) = _
        rw [starts_append, o3]; rfl
      · show requestCount (_ ++ _) = _
        rw [requestCount_append, o1]; rfl
  | ok result =>
    obtain ⟨a, ha, hok, hst, hex, hsi⟩ :=
      executeActivitiesFrom_spec env token ACTIVITIES (executeSignIn env token k).next
    have ha2 : executeAllActivities env token (executeSignIn env token k).next = some a := ha
    have hsi2 := hsi (activity_path_ne token)
    refine ⟨⟨.ok (), (executeSignIn env token k).events ++ a.events, a.next⟩,
      by simp only [runToken, hout, ha2, hok], rfl, ?_, ?_, ?_, ?_⟩
    · show signInRequests (_ ++ _) = _
      rw [signInRequests_append, o2, hsi2]; rfl
    · show List.any (_ ++ _) _ = _
      rw [List.any_append, o4, hex]; rfl
    · intro _
      show starts (_ ++ _) = _
      rw [starts_append, o3, hst]; rfl
    · rintro ⟨e, h⟩; cases h

/-- The token loop always finishes without rejecting, makes the sign-in
requests of its tokens in order, and never exits. -/
theorem runTokens_spec (tokens : List String) : ∀ k,
    ∃ r, runTokens env tokens k = some r ∧ r.outcome = .ok () ∧
      signInRequests r.events = tokens.map (fun t => createOptions t SIGN_IN) ∧
      r.events.any Event.isExit = false := by
  induction tokens with
  | nil => intro k; exact ⟨_, rfl, rfl, rfl, rfl⟩
  | cons t rest ih =>
    intro k
    obtain ⟨r1, h1, hok1, hs1, he1, -, -⟩ := runToken_spec env t k
    obtain ⟨r2, h2, hok2, hs2, he2⟩ := ih r1.next
    refine ⟨Run.after r1.events r2,
      by simp only [runTokens, h1, hok1, h2, Option.map_some'], hok2, ?_, ?_⟩
    · show signInRequests (_ ++ _) = _
      rw [signInRequests_append, hs1, hs2]; rfl
    · show List.any (_ ++ _) _ = _
      rw [List.any_append, he1, he2]; rfl

end Tokens

/-! ## Splitting the token list -/

theorem splitChars_ne_nil (sep : Char) (cs : List Char) : splitChars sep cs ≠ [] := by
  cases cs with
  | nil => simp [splitChars]
  | cons c cs =>
    by_cases h : c = sep
    · simp [splitChars, h]
    · cases hs : splitChars sep cs <;> simp [splitChars, h, hs]

theorem splitChars_length (sep : Char) (cs : List Char) :
    (splitChars sep cs).length = cs.count sep + 1 := by
  induction cs with
  | nil => simp [splitChars]
  | cons c cs ih =>
    by_cases h : c = sep
    · simp [splitChars, h, ih]
    · cases hs : splitChars sep cs with
      | nil => exact absurd hs (splitChars_ne_nil sep cs)
      | cons seg segs =>
        rw [hs] at ih
        simp only [splitChars, h, if_false, hs, List.length_cons] at ih ⊢
        rw [List.count_cons_of_ne (fun hc => h hc.symm)]
        exact ih

theorem intercalate_cons_cons {α : Type} (s : List α) (c : α) (seg : List α)
    (segs : List (List α)) :
    List.intercalate s ((c :: seg) :: segs) = c :: List.intercalate s (seg :: segs) := by
  cases segs <;> simp [List.intercalate, List.intersperse]

theorem intercalate_nil_cons {α : Type} (s : List α) (x : List α) (xs : List (List α)) :
    List.intercalate s ([] :: x :: xs) = s ++ List.intercalate s (x :: xs) := by
  simp [List.intercalate, List.intersperse]

/-- Joining the segments with the separator gives the text back. -/
theorem splitChars_join (sep : Char) (cs : List Char) :
    List.intercalate [sep] (splitChars sep cs) = cs := by
  induction cs with
  | nil => simp [splitChars, List.intercalate, List.intersperse]
  | cons c cs ih =>
    cases hs : splitChars sep cs with
    | nil => exact absurd hs (splitChars_ne_nil sep cs)
    | cons seg segs =>
      rw [hs] at ih
      by_cases h : c = sep
      · simp only [splitChars, h, if_true, hs]
        rw [intercalate_nil_cons, ih]
        rfl
      · simp only [splitChars, h, if_false, hs]
        rw [intercalate_cons_cons, ih]

/-- No segment contains the separator. -/
theorem splitChars_no_sep (sep : Char) (cs : List Char) :
    ∀ seg ∈ splitChars sep cs, sep ∉ seg := by
  induction cs with
  | nil => simp [splitChars]
  | cons c cs ih =>
    by_cases h : c = sep
    · simp only [splitChars, h, if_true, List.mem_cons]
      rintro seg (rfl | hseg)
      · simp
      · exact ih seg hseg
    · cases hs : splitChars sep cs with
      | nil => exact absurd hs (splitChars_ne_nil sep cs)
      | cons seg segs =>
        rw [hs] at ih
        simp only [splitChars, h, if_false, hs, List.mem_cons]
        rintro seg1 (rfl | hseg)
        · have := ih seg (List.mem_cons_self _ _)
          simp only [List.mem_cons, not_or]
          exact ⟨fun hc => h hc.symm, this⟩
        · exact ih seg1 (List.mem_cons_of_mem _ hseg)

theorem splitChars_of_not_mem (sep : Char) (cs : List Char) (h : sep ∉ cs) :
    splitChars sep cs = [cs] := by
  induction cs with
  | nil => rfl
  | cons c cs ih =>
    simp only [List.mem_cons, not_or] at h
    have hc : ¬ c = sep := fun hc => h.1 hc.symm
    simp [splitChars, hc, ih h.2]

theorem occursIn_singleton (c : Char) (cs : List Char) (h : occursIn [c] cs = false) :
    c ∉ cs := by
  induction cs with
  | nil => simp
  | cons d ds ih =>
    simp only [occursIn, startsWith, Bool.and_true, Bool.or_eq_false_iff, beq_eq_false_iff_ne,
      ne_eq] at h
    simp only [List.mem_cons, not_or]
    exact ⟨fun hc => h.1 hc.symm, ih h.2⟩

/-- The conditional in `main` is the split itself: a text without `;` splits
into itself. -/
theorem tokensOf_eq_split (authToken : String) : tokensOf authToken = split authToken ';' := by
  unfold tokensOf
  by_cases h : stringIncludes authToken ";" = true
  · rw [if_pos h]
  · rw [if_neg h]
    have h2 : occursIn [';'] authToken.data = false := by simpa [stringIncludes] using h
    have := splitChars_of_not_mem ';' authToken.data (occursIn_singleton _ _ h2)
    simp [split, this]

/-! ## Properties of the script -/

open Config Config.BASE Config.TASKS HttpClient ActivityExecutor

/-- C7: `HttpClient.createOptions(token, taskId)` has method `POST`, the
configured hostname and timeout (10000), the path
`/rest/api/task/trigger?taskId=` followed by `taskId`, and the authorization
header `Bearer ` followed by `token`; two calls give equal options only if
their tokens and task ids are equal. -/
theorem createOptions_spec (token taskId : String) :
    (createOptions token taskId).method = "POST" ∧
    (createOptions token taskId).hostname = Config.BASE.hostname ∧
    (createOptions token taskId).timeout = Config.BASE.timeout ∧ Config.BASE.timeout = 10000 ∧
    (createOptions token taskId).path = "/rest/api/task/trigger?taskId=" ++ taskId ∧
    (createOptions token taskId).headers.authorization = "Bearer " ++ token ∧
    ∀ token2 taskId2, createOptions token taskId = createOptions token2 taskId2 →
      token = token2 ∧ taskId = taskId2 := by
  refine ⟨rfl, rfl, rfl, rfl, rfl, rfl, ?_⟩
  intro token2 taskId2 h
  have hp := congrArg Options.path h
  have ha := congrArg (fun o => o.headers.authorization) h
  exact ⟨append_left_cancel_string ha, append_left_cancel_string hp⟩

/-- Instance of C7: equal options come from equal tokens and task ids. -/
theorem createOptions_spec_witness :
    createOptions "a" "x" = createOptions "a" "x" ∧ ("a" = "a" ∧ "x" = "x") :=
  ⟨rfl, (createOptions_spec "a" "x").2.2.2.2.2.2 "a" "x" rfl⟩

/-- C5: with a server that always answers `'SUCCESS'`, one call
`executeActivity(taskId, taskName)` issues 16 requests, one more than
`maxAttempts = 15`, before it rejects with the "maximum reached" error. -/
theorem executeActivity_alwaysSuccess (token taskId taskName : String) (k : Nat) :
    ∃ r, executeActivity alwaysSuccess token taskId taskName 0 k = some r ∧
      requestCount r.events = 16 ∧ maxAttempts = 15 ∧
      r.outcome = .error (.maxAttemptsReached 15) :=
  ⟨_, rfl, rfl, rfl, rfl⟩

/-- C8: `executeActivity` terminates for every stream of responses.  Each
invocation issues exactly one request and then either finishes or is the
invocation with `retryCount + 1`; from `retryCount = maxAttempts` on every
response finishes the call; hence a call settles after at most
`maxAttempts - retryCount + 1` requests, whatever bound at least that large is
given to the recursion. -/
theorem executeActivity_terminates (env : Nat → Response) (token taskId taskName : String)
    (retryCount k : Nat) :
    (∀ fuel, ∃ evs : List Event, requestCount evs = 1 ∧
      ((∃ outcome, executeActivityLoop env token taskId taskName (fuel + 1) retryCount k
          = some ⟨outcome, evs, k + 1⟩) ∨
        executeActivityLoop env token taskId taskName (fuel + 1) retryCount k
          = (executeActivityLoop env token taskId taskName fuel (retryCount + 1) (k + 1)).map
              (Run.after evs))) ∧
    (maxAttempts ≤ retryCount → ∀ fuel, ∃ outcome evs, requestCount evs = 1 ∧
      executeActivityLoop env token taskId taskName (fuel + 1) retryCount k
        = some ⟨outcome, evs, k + 1⟩) ∧
    (∃ r, executeActivity env token taskId taskName retryCount k = some r ∧
      requestCount r.events ≤ maxAttempts - retryCount + 1 ∧
      r.next = k + requestCount r.events ∧
      ∀ fuel, maxAttempts - retryCount + 1 ≤ fuel →
        executeActivityLoop env token taskId taskName fuel retryCount k = some r) := by
  refine ⟨?_, ?_, ?_⟩
  · intro fuel
    rcases ht : tryBlock (env k) taskName retryCount with ⟨evs, fin⟩
    cases fin with
    | returned result =>
      obtain ⟨-, msg, rfl, -⟩ := tryBlock_returned_inv ht
      exact ⟨_, by simp [requestCount, entry, shown, Event.isRequest],
        Or.inl ⟨_, loop_returned env token taskId taskName ht⟩⟩
    | recurse =>
      obtain ⟨-, -, msg, rfl⟩ := tryBlock_recurse_inv ht
      exact ⟨_, by simp [requestCount, entry, shown, Event.isRequest],
        Or.inr (loop_recurse env token taskId taskName ht)⟩
    | thrown e =>
      by_cases hlt : retryCount < maxRetries
      · refine ⟨_, ?_, Or.inr (loop_retry env token taskId taskName ht hlt)⟩
        rcases tryBlock_thrown_inv ht with rfl | ⟨msg, rfl⟩ <;>
          simp [requestCount, entry, shown, beforeRetry, Event.isRequest]
      · refine ⟨_, ?_, Or.inl ⟨_, loop_thrown env token taskId taskName ht hlt⟩⟩
        rcases tryBlock_thrown_inv ht with rfl | ⟨msg, rfl⟩ <;>
          simp [requestCount, entry, shown, Event.isRequest]
  · intro hge fuel
    rcases ht : tryBlock (env k) taskName retryCount with ⟨evs, fin⟩
    cases fin with
    | returned result =>
      obtain ⟨-, msg, rfl, -⟩ := tryBlock_returned_inv ht
      exact ⟨_, _, by simp [requestCount, entry, shown, Event.isRequest],
        loop_returned env token taskId taskName ht⟩
    | recurse =>
      obtain ⟨hlt, -⟩ := tryBlock_recurse_inv ht
      omega
    | thrown e =>
      have hlt : ¬ retryCount < maxRetries := by
        simp only [maxAttempts, maxRetries] at hge ⊢; omega
      refine ⟨_, _, ?_, loop_thrown env token taskId taskName ht hlt⟩
      rcases tryBlock_thrown_inv ht with rfl | ⟨msg, rfl⟩ <;>
        simp [requestCount, entry, shown, Event.isRequest]
  · obtain ⟨r, hr⟩ := loop_total env token taskId taskName
      (maxAttempts - retryCount + 1) retryCount k (le_refl _)
    obtain ⟨h1, -, h3⟩ := loop_requests env token taskId taskName _ _ _ _ hr
    exact ⟨r, hr, h3, h1, fun fuel hle => loop_mono env token taskId taskName _ _ _ _ hr fuel hle⟩

/-- Instance of C8: at `retryCount = 15` a `'SUCCESS'` answer finishes the call
after its single request. -/
theorem executeActivity_terminates_witness :
    maxAttempts ≤ 15 ∧ ∃ outcome evs, requestCount evs = 1 ∧
      executeActivityLoop alwaysSuccess "t" "id" "name" (0 + 1) 15 0
        = some ⟨outcome, evs, 0 + 1⟩ :=
  ⟨by decide, (executeActivity_terminates alwaysSuccess "t" "id" "name" 15 0).2.1 (by decide) 0⟩

/-- C6: one call `executeActivity(taskId, taskName)` retries after a failure at
most `maxRetries = 3` times, each retry directly preceded by a sleep of
`retryDelay = 1000` ms; when the first four attempts all fail it issues
exactly four requests and rejects with the error of the fourth attempt. -/
theorem executeActivity_retry_budget (env : Nat → Response) (token taskId taskName : String)
    (k : Nat) :
    ∃ r, executeActivity env token taskId taskName 0 k = some r ∧
      retries r.events ≤ maxRetries ∧ maxRetries = 3 ∧
      retryDelays r.events = List.replicate (retries r.events) 1000 ∧
      ((∀ i, i < 4 → isFailure (env (k + i)) = true) →
        requestCount r.events = 4 ∧ retries r.events = 3 ∧
        ∃ e, thrownBy (env (k + 3)) taskName 3 = some e ∧ r.outcome = .error e) := by
  obtain ⟨r, hr⟩ := loop_total env token taskId taskName (maxAttempts - 0 + 1) 0 k (le_refl _)
  obtain ⟨h1, h2⟩ := loop_retries env token taskId taskName _ _ _ _ hr
  refine ⟨r, hr, h1, rfl, h2, ?_⟩
  intro hall
  have hcont : ∀ i, i < 3 → continues (env (k + i)) taskName (0 + i) = true := by
    intro i hi
    rw [Nat.zero_add]
    exact continues_of_isFailure taskName (hall i (by omega)) hi
  obtain ⟨pre, hreq, hfail, -, hloop⟩ := loop_skip env token taskId taskName 3 0 k 13 hcont
  have hret := hfail (fun i hi => hall i (by omega))
  obtain ⟨evs, e, ht⟩ := tryBlock_of_isFailure taskName 3 (hall 3 (by omega))
  have hlast : executeActivityLoop env token taskId taskName (12 + 1) 3 (k + 3)
      = some ⟨.error e, entry token taskId taskName 3 ++ evs, k + 3 + 1⟩ :=
    loop_thrown env token taskId taskName ht (by decide)
  have hrun : executeActivityLoop env token taskId taskName (maxAttempts - 0 + 1) 0 k
      = some (Run.after pre ⟨.error e, entry token taskId taskName 3 ++ evs, k + 3 + 1⟩) := by
    show executeActivityLoop env token taskId taskName (13 + 3) 0 k = _
    rw [hloop]
    show (executeActivityLoop env token taskId taskName (12 + 1) 3 (k + 3)).map _ = _
    rw [hlast]
    rfl
  rw [hrun] at hr
  cases hr
  refine ⟨?_, ?_, e, ?_, rfl⟩
  · rcases tryBlock_thrown_inv ht with rfl | ⟨msg, rfl⟩ <;>
    · simp [requestCount, entry, shown, Run.after, Event.isRequest, List.countP_cons,
        List.countP_append] at hreq ⊢
      omega
  · rcases tryBlock_thrown_inv ht with rfl | ⟨msg, rfl⟩ <;>
    · simp [retries, entry, shown, Run.after, Event.isRetry, List.countP_cons,
        List.countP_append] at hret ⊢
      omega
  · simp [thrownBy, ht]

/-- Instance of C6: against a server that is down, the call makes four
requests and three retries and rejects with the network error. -/
theorem executeActivity_retry_budget_witness :
    (∀ i, i < 4 → isFailure (alwaysDown (0 + i)) = true) ∧
    ∃ r, executeActivity alwaysDown "t" "id" "name" 0 0 = some r ∧
      requestCount r.events = 4 ∧ retries r.events = 3 ∧
      r.outcome = .error (.requestFailed "网络请求失败：down") := by
  refine ⟨fun _ _ => rfl, ?_⟩
  obtain ⟨r, hr, -, -, -, h⟩ := executeActivity_retry_budget alwaysDown "t" "id" "name" 0
  obtain ⟨h1, h2, e, he, hout⟩ := h (fun _ _ => rfl)
  refine ⟨r, hr, h1, h2, ?_⟩
  have : e = .requestFailed "网络请求失败：down" := by
    simpa [thrownBy, tryBlock, alwaysDown] using he.symm
  rw [hout, this]

/-- C4 as stated fails: when every response is `{"msg": ["maximum"]}` the call
resolves with that response, whose `msg` is an array and not a string. -/
theorem executeActivity_resolves_on_array_msg :
    ∃ r result, executeActivity arrayMaximum "t" "id" "name" 0 0 = some r ∧
      r.outcome = .ok result ∧ requestCount r.events = 1 ∧
      getMsg result = .ok (some (.arr [.str "maximum"])) ∧
      ¬ ∃ s, getMsg result = .ok (some (.str s)) := by
  refine ⟨_, _, rfl, rfl, rfl, rfl, ?_⟩
  rintro ⟨s, hs⟩
  have h : getMsg (.obj [("msg", .arr [.str "maximum"])]) = .ok (some (.arr [.str "maximum"])) :=
    rfl
  rw [h] at hs
  cases hs

/-- C4, amended: if `executeActivity` resolves, the value it returns is the
last response received, and the `msg` of that response is either a non-empty
string containing `maximum` or an array that has the string `maximum` as an
element and converts to a string without error.  A response whose `msg` is
`'SUCCESS'` never ends the call successfully: at the attempt cap the call
rejects, below it another request follows.  A response with missing or empty
`msg`, or any other `msg`, makes the `try` block throw. -/
theorem executeActivity_resolved (env : Nat → Response) (token taskId taskName : String)
    (retryCount k : Nat) :
    (∀ r result, executeActivity env token taskId taskName retryCount k = some r →
      r.outcome = .ok result →
      k < r.next ∧ env (r.next - 1) = .resolve result ∧
      ((∃ s, getMsg result = .ok (some (.str s)) ∧ s ≠ "" ∧
          stringIncludes s "maximum" = true) ∨
        (∃ items, getMsg result = .ok (some (.arr items)) ∧
          arrayIncludes items "maximum" = true ∧ Json.anyToStringThrows items = false))) ∧
    (isSuccess (env k) = true → ∀ fuel r,
      executeActivityLoop env token taskId taskName (fuel + 1) retryCount k = some r →
      (maxAttempts ≤ retryCount →
        r.outcome = .error (.maxAttemptsReached maxAttempts) ∧ requestCount r.events = 1) ∧
      (retryCount < maxAttempts → 2 ≤ requestCount r.events)) ∧
    (∀ result, env k = .resolve result → isSuccess (env k) = false →
      (∀ s, getMsg result = .ok (some (.str s)) → stringIncludes s "maximum" = false) →
      (∀ items, getMsg result = .ok (some (.arr items)) →
        arrayIncludes items "maximum" = true → Json.anyToStringThrows items = true) →
      ∃ e, thrownBy (env k) taskName retryCount = some e) := by
  refine ⟨?_, ?_, ?_⟩
  · intro r result hr hout
    obtain ⟨h1, h2, msg, hm, htr, hts, -, hi⟩ :=
      loop_resolved env token taskId taskName _ _ _ _ hr result hout
    refine ⟨h1, h2, ?_⟩
    cases msg with
    | str s =>
      refine Or.inl ⟨s, hm, ?_, ?_⟩
      · simpa [truthy] using htr
      · simpa [includes] using hi
    | arr items =>
      refine Or.inr ⟨items, hm, ?_, ?_⟩
      · simpa [includes] using hi
      · simpa [Json.toStringThrows] using hts
    | null => simp [includes] at hi
    | bool b => simp [includes] at hi
    | num n => simp [includes] at hi
    | obj members => simp [includes] at hi
  · intro hs fuel r hr
    have ht := tryBlock_of_isSuccess taskName retryCount hs
    constructor
    · intro hge
      rw [if_pos hge] at ht
      have hlt : ¬ retryCount < maxRetries := by
        simp only [maxAttempts, maxRetries] at hge ⊢; omega
      rw [loop_thrown env token taskId taskName ht hlt] at hr
      cases hr
      exact ⟨rfl, by simp [requestCount, entry, shown, Event.isRequest]⟩
    · intro hlt
      rw [if_neg (by omega)] at ht
      rw [loop_recurse env token taskId taskName ht] at hr
      cases hr2 : executeActivityLoop env token taskId taskName fuel (retryCount + 1) (k + 1) with
      | none => simp [hr2] at hr
      | some r2 =>
        simp [hr2] at hr
        subst hr
        obtain ⟨-, h1, -⟩ := loop_requests env token taskId taskName _ _ _ _ hr2
        rw [requestCount_after]
        have : requestCount (entry token taskId taskName retryCount ++
            [shown taskName (.str "SUCCESS"), Event.sleep activityDelay]) = 1 := by
          simp [requestCount, entry, shown, Event.isRequest]
        omega
  · intro result hres hns hstr harr
    rcases tryBlock_cases (env k) taskName retryCount with ⟨e, ht⟩ | ⟨msg, e, ht⟩ |
      ⟨msg, hlt, hs, ht⟩ | ⟨msg, result1, hres1, hm, htr, hts, hq, hi, ht⟩
    · exact ⟨e, by simp [thrownBy, ht]⟩
    · exact ⟨e, by simp [thrownBy, ht]⟩
    · rw [hs] at hns; cases hns
    · exfalso
      rw [hres] at hres1
      cases hres1
      cases msg with
      | str s =>
        have := hstr s hm
        simp [includes, this] at hi
      | arr items =>
        have h1 : arrayIncludes items "maximum" = true := by simpa [includes] using hi
        have := harr items hm h1
        simp [Json.toStringThrows, this] at hts
      | null => simp [includes] at hi
      | bool b => simp [includes] at hi
      | num n => simp [includes] at hi
      | obj members => simp [includes] at hi

/-- Instance of C4 (amended): against `{"msg": "maximum limit reached"}` the
call resolves with the response it just received. -/
theorem executeActivity_resolved_witness :
    ∃ r result, executeActivity limitReached "t" "id" "name" 0 0 = some r ∧
      r.outcome = .ok result ∧ 0 < r.next ∧ limitReached (r.next - 1) = .resolve result :=
  ⟨_, _, rfl, rfl,
    ((executeActivity_resolved limitReached "t" "id" "name" 0 0).1 _ _ rfl rfl).1,
    ((executeActivity_resolved limitReached "t" "id" "name" 0 0).1 _ _ rfl rfl).2.1⟩

/-- C9 as stated fails: the response sequence below starts with sixteen
`'SUCCESS'` responses and then fails, yet the call does not reject with the
error of that failure.  It stops at the attempt cap, after sixteen requests,
with the "maximum reached" error, and the failing response (index 16) is
never asked for. -/
theorem executeActivity_sixteen_success_then_failure :
    3 ≤ 16 ∧ (∀ i, i < 16 → isSuccess (sixteenSuccessThenDown i) = true) ∧
    isFailure (sixteenSuccessThenDown 16) = true ∧
    thrownBy (sixteenSuccessThenDown 16) "name" 16 = some (.requestFailed "网络请求失败：down") ∧
    ∃ r, executeActivity sixteenSuccessThenDown "t" "id" "name" 0 0 = some r ∧
      requestCount r.events = 16 ∧ r.next = 16 ∧
      r.outcome = .error (.maxAttemptsReached 15) ∧
      r.outcome ≠ .error (.requestFailed "网络请求失败：down") := by
  refine ⟨by decide, ?_, rfl, rfl, _, rfl, rfl, rfl, rfl, ?_⟩
  · intro i hi
    simp only [sixteenSuccessThenDown, if_pos hi]
    rfl
  · intro h
    have h2 : (Except.error (Err.maxAttemptsReached 15) : Except Err Json)
        = .error (.requestFailed "网络请求失败：down") := h
    cases h2

/-- C9, amended: the failure retries and the `'SUCCESS'` repeats share the
counter `retryCount`.  Let the first `n` attempts of a call, `n < maxAttempts`,
each lead to another attempt, and let attempt `n` fail, that is, let its `try`
block throw `e` for whatever reason.  Then that failure is retried when
`n < maxRetries = 3`, and otherwise the call rejects at once with `e` after
`n + 1` requests.  In particular, after `n` responses `'SUCCESS'` with
`3 ≤ n < maxAttempts = 15`, a failed attempt makes the call reject at once with
the error of that attempt, with no retry. -/
theorem executeActivity_shared_counter (env : Nat → Response)
    (token taskId taskName : String) (k : Nat) :
    (∀ n e, n < maxAttempts →
      (∀ i, i < n → continues (env (k + i)) taskName i = true) →
      thrownBy (env (k + n)) taskName n = some e →
      ∃ r, executeActivity env token taskId taskName 0 k = some r ∧
        (n < maxRetries → n + 2 ≤ requestCount r.events ∧
          Event.log (.retrying e (retryDelay / 1000)) .info ∈ r.events) ∧
        (maxRetries ≤ n → r.outcome = .error e ∧ requestCount r.events = n + 1)) ∧
    (∀ n e, 3 ≤ n → n < maxAttempts → (∀ i, i < n → isSuccess (env (k + i)) = true) →
      thrownBy (env (k + n)) taskName n = some e →
      ∃ r, executeActivity env token taskId taskName 0 k = some r ∧
        r.outcome = .error e ∧ requestCount r.events = n + 1 ∧ retries r.events = 0) := by
  have key : ∀ n e, n < maxAttempts →
      (∀ i, i < n → continues (env (k + i)) taskName i = true) →
      thrownBy (env (k + n)) taskName n = some e →
      ∃ pre evs, requestCount pre = n ∧
        ((∀ i, i < n → isSuccess (env (k + i)) = true) → retries pre = 0) ∧
        tryBlock (env (k + n)) taskName n = (evs, .thrown e) ∧
        executeActivity env token taskId taskName 0 k =
          (executeActivityLoop env token taskId taskName (maxAttempts - n + 1) n (k + n)).map
            (Run.after pre) := by
    intro n e hn hpre he
    obtain ⟨evs, ht⟩ := thrownBy_eq he
    have hpre2 : ∀ i, i < n → continues (env (k + i)) taskName (0 + i) = true := by
      intro i hi; rw [Nat.zero_add]; exact hpre i hi
    obtain ⟨pre, hreq, -, hsucc, hloop⟩ :=
      loop_skip env token taskId taskName n 0 k (maxAttempts - n + 1) hpre2
    refine ⟨pre, evs, hreq, hsucc, ht, ?_⟩
    rw [Nat.zero_add] at hloop
    rw [← hloop]
    show executeActivityLoop env token taskId taskName (maxAttempts - 0 + 1) 0 k = _
    congr 1
    omega
  constructor
  · intro n e hn hpre he
    obtain ⟨pre, evs, hreq, -, ht, hrun⟩ := key n e hn hpre he
    by_cases hlt : n < maxRetries
    · rw [loop_retry env token taskId taskName ht hlt, map_after_after] at hrun
      obtain ⟨r2, hr2⟩ := loop_total env token taskId taskName (maxAttempts - n) (n + 1)
        (k + n + 1) (by simp only [maxAttempts, maxRetries] at hlt ⊢; omega)
      rw [hr2] at hrun
      refine ⟨_, hrun, fun _ => ⟨?_, ?_⟩, fun h => absurd hlt (by omega)⟩
      · obtain ⟨-, h1, -⟩ := loop_requests env token taskId taskName _ _ _ _ hr2
        rw [requestCount_after]
        have : requestCount (pre ++ (entry token taskId taskName n ++ evs ++ beforeRetry e))
            = n + 1 := by
          rcases tryBlock_thrown_inv ht with rfl | ⟨msg, rfl⟩ <;>
            simp [requestCount, entry, shown, beforeRetry, Event.isRequest,
              List.countP_cons] at hreq ⊢ <;> omega
        omega
      · simp [Run.after, beforeRetry]
    · rw [loop_thrown env token taskId taskName ht hlt] at hrun
      refine ⟨_, hrun, fun h => absurd h hlt, fun _ => ⟨rfl, ?_⟩⟩
      rw [requestCount_after]
      rcases tryBlock_thrown_inv ht with rfl | ⟨msg, rfl⟩ <;>
        simp [requestCount, entry, shown, Event.isRequest, List.countP_cons] at hreq ⊢ <;>
        omega
  · intro n e h3 hn hsuccAll he
    have hpre : ∀ i, i < n → continues (env (k + i)) taskName i = true := by
      intro i hi
      exact continues_of_isSuccess taskName (hsuccAll i hi) (by omega)
    obtain ⟨pre, evs, hreq, hsucc, ht, hrun⟩ := key n e hn hpre he
    have hlt : ¬ n < maxRetries := by simp only [maxRetries]; omega
    rw [loop_thrown env token taskId taskName ht hlt] at hrun
    refine ⟨_, hrun, rfl, ?_, ?_⟩
    · rw [requestCount_after]
      rcases tryBlock_thrown_inv ht with rfl | ⟨msg, rfl⟩ <;>
        simp [requestCount, entry, shown, Event.isRequest, List.countP_cons] at hreq ⊢ <;>
        omega
    · rw [retries_after, hsucc hsuccAll]
      rcases tryBlock_thrown_inv ht with rfl | ⟨msg, rfl⟩ <;>
        simp [retries, entry, shown, Event.isRetry]

/-- Instance of C9 (amended): after three `'SUCCESS'` responses, a response
whose `msg` cannot be printed makes the call reject with the `TypeError` of
that attempt, after four requests and with no retry. -/
theorem executeActivity_shared_counter_witness :
    3 ≤ 3 ∧ 3 < maxAttempts ∧
    (∀ i, i < 3 → isSuccess (threeSuccessThenUnprintable (0 + i)) = true) ∧
    isFailure (threeSuccessThenUnprintable (0 + 3)) = false ∧
    thrownBy (threeSuccessThenUnprintable (0 + 3)) "name" 3 = some .typeError ∧
    ∃ r, executeActivity threeSuccessThenUnprintable "t" "id" "name" 0 0 = some r ∧
      r.outcome = .error .typeError ∧
      requestCount r.events = 3 + 1 ∧ retries r.events = 0 :=
  have hs : ∀ i, i < 3 → isSuccess (threeSuccessThenUnprintable (0 + i)) = true := by
    intro i hi
    simp only [threeSuccessThenUnprintable, Nat.zero_add, if_pos hi]
    rfl
  ⟨by decide, by decide, hs, rfl, rfl,
    (executeActivity_shared_counter threeSuccessThenUnprintable "t" "id" "name" 0).2 3
      .typeError (by decide) (by decide) hs rfl⟩

/-- C10: `executeSignIn` issues exactly one request (for the sign-in task) and
consumes one response, with no retry.  The five activities of a token are
entered exactly when `executeSignIn` does not throw; when it throws, the
sign-in request is the only request made for that token.  It does not throw
whenever `msg` is a string (`'SUCCESS'` or not, containing `今日已签到` or
not); it throws when the request rejects, when the body has no `msg`, and
when `result.msg` itself cannot be read. -/
theorem signIn_gates_activities (env : Nat → Response) (token : String) (k : Nat) :
    requestCount (executeSignIn env token k).events = 1 ∧
    (executeSignIn env token k).next = k + 1 ∧
    signInRequests (executeSignIn env token k).events = [createOptions token SIGN_IN] ∧
    (∃ r, runToken env token k = some r ∧
      ((∃ result, (executeSignIn env token k).outcome = .ok result) ↔
        starts r.events = ACTIVITIES.map (fun a => (a.taskId, a.taskName))) ∧
      ((∃ e, (executeSignIn env token k).outcome = .error e) ↔
        (starts r.events = [] ∧ requestCount r.events = 1))) ∧
    (∀ result s, env k = .resolve result → getMsg result = .ok (some (.str s)) →
      (executeSignIn env token k).outcome = .ok result) ∧
    (∀ m, env k = .reject m →
      (executeSignIn env token k).outcome = .error (.requestFailed m)) ∧
    (∀ result, env k = .resolve result → getMsg result = .ok none →
      (executeSignIn env token k).outcome = .error .typeError) ∧
    (∀ result e, env k = .resolve result → getMsg result = .error e →
      (executeSignIn env token k).outcome = .error e) := by
  obtain ⟨o1, o2, -, -⟩ := executeSignIn_observed env token k
  obtain ⟨hn, -⟩ := executeSignIn_events env token k
  obtain ⟨r, hr, -, -, -, hok, herr⟩ := runToken_spec env token k
  have hne : ([] : List (String × String)) ≠ ACTIVITIES.map (fun a => (a.taskId, a.taskName)) := by
    decide
  refine ⟨o1, hn, o2, ⟨r, hr, ⟨hok, ?_⟩, ⟨herr, ?_⟩⟩, ?_, ?_, ?_, ?_⟩
  · intro hst
    cases hout : (executeSignIn env token k).outcome with
    | ok result => exact ⟨result, rfl⟩
    | error e =>
      have := (herr ⟨e, hout⟩).1
      rw [this] at hst
      exact absurd hst hne
  · rintro ⟨hst, -⟩
    cases hout : (executeSignIn env token k).outcome with
    | error e => exact ⟨e, rfl⟩
    | ok result =>
      have := hok ⟨result, hout⟩
      rw [hst] at this
      exact absurd this hne
  · intro result s hres hm
    by_cases hs : strictEqStr (some (Json.str s)) "SUCCESS" = true
    · simp [executeSignIn, hres, hm, hs]
    · cases hi : stringIncludes s "今日已签到" <;>
        simp [executeSignIn, hres, hm, hs, includes, hi]
  · intro m hres
    simp [executeSignIn, hres]
  · intro result hres hm
    simp [executeSignIn, hres, hm, strictEqStr, includes]
  · intro result e hres hm
    simp [executeSignIn, hres, hm]

/-- Instance of C10: against a server that is down the sign-in throws. -/
theorem signIn_gates_activities_witness :
    alwaysDown 0 = .reject "网络请求失败：down" ∧
    (executeSignIn alwaysDown "t" 0).outcome = .error (.requestFailed "网络请求失败：down") :=
  ⟨rfl, (signIn_gates_activities alwaysDown "t" 0).2.2.2.2.2.1 _ rfl⟩

/-- C3: `executeAllActivities` always finishes and never rejects.  It calls
`executeActivity` with `retryCount = 0` once for each of the five configured
activities, in the configured order, each call starting where the previous
one stopped; after a call that rejects it logs the error and goes on. -/
theorem executeAllActivities_spec (env : Nat → Response) (token : String) (k : Nat) :
    ∃ r1 r2 r3 r4 r5 r,
      executeActivity env token "49986ea4f9f6420bc6db9e0c58eb8819" "浏览游戏广告" 0 k
        = some r1 ∧
      executeActivity env token "fdae379cb3b3a19d6b654625f0747801" "浏览商品广告" 0 r1.next
        = some r2 ∧
      executeActivity env token "d5bc74ea7d8590d5cff7921e2885edf3" "浏览视频广告" 0 r2.next
        = some r3 ∧
      executeActivity env token "1a73ab0327754bb83e3ea0edc5aa834a" "浏览普通广告" 0 r3.next
        = some r4 ∧
      executeActivity env token "f8fc47359795fe39535ead4bca48d175" "隐藏广告" 0 r4.next
        = some r5 ∧
      executeAllActivities env token k = some r ∧
      r.outcome = .ok () ∧ r.next = r5.next ∧
      r.events =
        started "浏览游戏广告" :: r1.events ++ logCaught r1.outcome ++
        (started "浏览商品广告" :: r2.events ++ logCaught r2.outcome ++
        (started "浏览视频广告" :: r3.events ++ logCaught r3.outcome ++
        (started "浏览普通广告" :: r4.events ++ logCaught r4.outcome ++
        (started "隐藏广告" :: r5.events ++ logCaught r5.outcome)))) ∧
      starts r.events =
        [("49986ea4f9f6420bc6db9e0c58eb8819", "浏览游戏广告"),
         ("fdae379cb3b3a19d6b654625f0747801", "浏览商品广告"),
         ("d5bc74ea7d8590d5cff7921e2885edf3", "浏览视频广告"),
         ("1a73ab0327754bb83e3ea0edc5aa834a", "浏览普通广告"),
         ("f8fc47359795fe39535ead4bca48d175", "隐藏广告")] ∧
      ((ACTIVITIES.zip ["游戏广告", "商品广告", "视频广告", "普通广告", "隐藏广告"]).all
        (fun p => stringIncludes p.1.taskName p.2) = true ∧ ACTIVITIES.length = 5) ∧
      (∀ e, (r1.outcome = .error e ∨ r2.outcome = .error e ∨ r3.outcome = .error e ∨
          r4.outcome = .error e ∨ r5.outcome = .error e) →
        Event.log (.ofError e) .error ∈ r.events) := by
  have total : ∀ taskId taskName k1, ∃ r1,
      executeActivity env token taskId taskName 0 k1 = some r1 :=
    fun taskId taskName k1 =>
      loop_total env token taskId taskName (maxAttempts - 0 + 1) 0 k1 (le_refl _)
  obtain ⟨r1, h1⟩ := total "49986ea4f9f6420bc6db9e0c58eb8819" "浏览游戏广告" k
  obtain ⟨r2, h2⟩ := total "fdae379cb3b3a19d6b654625f0747801" "浏览商品广告" r1.next
  obtain ⟨r3, h3⟩ := total "d5bc74ea7d8590d5cff7921e2885edf3" "浏览视频广告" r2.next
  obtain ⟨r4, h4⟩ := total "1a73ab0327754bb83e3ea0edc5aa834a" "浏览普通广告" r3.next
  obtain ⟨r5, h5⟩ := total "f8fc47359795fe39535ead4bca48d175" "隐藏广告" r4.next
  obtain ⟨r, hr, hok, hst, -, -⟩ := executeActivitiesFrom_spec env token ACTIVITIES k
  have hr2 : executeAllActivities env token k = some r := hr
  have hr3 := hr2
  simp only [executeAllActivities, ACTIVITIES, executeActivitiesFrom, h1, h2, h3, h4, h5,
    Option.map_some', Option.some.injEq] at hr3
  refine ⟨r1, r2, r3, r4, r5, r, h1, h2, h3, h4, h5, hr2, hok, ?_, ?_, hst, ⟨by decide, rfl⟩, ?_⟩
  · rw [← hr3]; rfl
  · rw [← hr3]; simp [Run.after]
  · intro e he
    rw [← hr3]
    simp only [Run.after, List.append_nil]
    rcases he with h | h | h | h | h <;> simp [h, logCaught]

/-- Instance of C3: against a server that is down, every activity is still
entered and the network error is logged. -/
theorem executeAllActivities_spec_witness :
    ∃ r, executeAllActivities alwaysDown "t" 0 = some r ∧ r.outcome = .ok () ∧
      (starts r.events).length = 5 ∧
      Event.log (.ofError (.requestFailed "网络请求失败：down")) .error ∈ r.events := by
  obtain ⟨r1, r2, r3, r4, r5, r, h1, -, -, -, -, hr, hok, -, -, hst, -, hlog⟩ :=
    executeAllActivities_spec alwaysDown "t" 0
  refine ⟨r, hr, hok, by rw [hst]; rfl, hlog _ (Or.inl ?_)⟩
  have : executeActivity alwaysDown "t" "49986ea4f9f6420bc6db9e0c58eb8819" "浏览游戏广告" 0 0
      = some ⟨.error (.requestFailed "网络请求失败：down"), _, _⟩ := rfl
  rw [this] at h1
  cases h1
  rfl

/-- C2: for a non-empty `AUTH_TOKEN` and any server, `main` finishes, and the
sign-in requests it issues are, in order, those of the segments of
`AUTH_TOKEN` between its `;` characters: there are as many as `;` characters
plus one, joined with `;` they give `AUTH_TOKEN` back (nothing is trimmed or
dropped), and no segment contains `;`. -/
theorem main_signIn_per_token (env : Nat → Response) (authToken : String)
    (h : authToken ≠ "") :
    ∃ events, main env (some authToken) = some events ∧
      signInRequests events = (split authToken ';').map (fun t => createOptions t SIGN_IN) ∧
      (split authToken ';').length = authToken.data.count ';' + 1 ∧
      List.intercalate [';'] ((split authToken ';').map String.data) = authToken.data ∧
      ∀ t ∈ split authToken ';', ';' ∉ t.data := by
  obtain ⟨r, hr, hok, hsi, -⟩ := runTokens_spec env (tokensOf authToken) 0
  rw [tokensOf_eq_split] at hsi
  refine ⟨[Event.log (.text "开始执行签到任务...") .info] ++ r.events ++
      [Event.log (.text "所有任务执行完成！") .info], ?_, ?_, ?_, ?_, ?_⟩
  · simp only [main, h, if_false, hr, hok, Option.map_some']
  · rw [signInRequests_append, signInRequests_append, hsi]
    simp [signInRequests]
  · simp [split, splitChars_length]
  · have : (split authToken ';').map String.data = splitChars ';' authToken.data := by
      simp [split, Function.comp_def]
    rw [this, splitChars_join]
  · intro t ht
    simp only [split, List.mem_map] at ht
    obtain ⟨seg, hseg, rfl⟩ := ht
    exact splitChars_no_sep ';' authToken.data seg hseg

/-- Instance of C2: `AUTH_TOKEN = "a;;b"` gives three sign-in requests, the
second one for the empty token. -/
theorem main_signIn_per_token_witness :
    "a;;b" ≠ "" ∧ ∃ events, main alwaysDown (some "a;;b") = some events ∧
      signInRequests events =
        [createOptions "a" SIGN_IN, createOptions "" SIGN_IN, createOptions "b" SIGN_IN] := by
  refine ⟨by decide, ?_⟩
  obtain ⟨events, h1, h2, -⟩ := main_signIn_per_token alwaysDown "a;;b" (by decide)
  exact ⟨events, h1, h2⟩

/-- C1: `main` always finishes.  It calls `process.exit(1)` exactly when
`AUTH_TOKEN` is unset or empty, and then no request is made; for every other
`AUTH_TOKEN` and every server the last thing it does is to log
`所有任务执行完成！`, and it never calls `process.exit`. -/
theorem main_exit (env : Nat → Response) (authToken : Option String) :
    ∃ events, main env authToken = some events ∧
      (Event.exit 1 ∈ events ↔ (authToken = none ∨ authToken = some "")) ∧
      ((authToken = none ∨ authToken = some "") → requestCount events = 0) ∧
      (¬ (authToken = none ∨ authToken = some "") →
        events.getLast? = some (Event.log (.text "所有任务执行完成！") .info) ∧
        events.any Event.isExit = false) := by
  have missing : ∀ events : List Event,
      events = [Event.log (.ofError .missingToken) .error, Event.exit 1] →
      authToken = none ∨ authToken = some "" →
      (Event.exit 1 ∈ events ↔ (authToken = none ∨ authToken = some "")) ∧
      ((authToken = none ∨ authToken = some "") → requestCount events = 0) ∧
      (¬ (authToken = none ∨ authToken = some "") →
        events.getLast? = some (Event.log (.text "所有任务执行完成！") .info) ∧
        events.any Event.isExit = false) := by
    intro events hev hcase
    subst hev
    exact ⟨⟨fun _ => hcase, fun _ => by simp⟩, fun _ => rfl, fun hn => absurd hcase hn⟩
  cases authToken with
  | none => exact ⟨_, rfl, missing _ rfl (Or.inl rfl)⟩
  | some tok =>
    by_cases h : tok = ""
    · subst h
      exact ⟨_, rfl, missing _ rfl (Or.inr rfl)⟩
    · obtain ⟨r, hr, hok, -, hex⟩ := runTokens_spec env (tokensOf tok) 0
      have hcase : ¬ ((some tok : Option String) = none ∨ some tok = some "") := by
        simp [h]
      have hany : ([Event.log (.text "开始执行签到任务...") .info] ++ r.events ++
          [Event.log (.text "所有任务执行完成！") .info]).any Event.isExit = false := by
        rw [List.any_append, List.any_append, hex]; rfl
      refine ⟨[Event.log (.text "开始执行签到任务...") .info] ++ r.events ++
        [Event.log (.text "所有任务执行完成！") .info], ?_, ⟨?_, ?_⟩, ?_, ?_⟩
      · simp only [main, h, if_false, hr, hok, Option.map_some']
      · intro hmem
        have := (List.any_eq_false.mp hany) _ hmem
        simp [Event.isExit] at this
      · intro hc; exact absurd hc hcase
      · intro hc; exact absurd hc hcase
      · intro _
        exact ⟨List.getLast?_concat _, hany⟩

/-- Instance of C1: with `AUTH_TOKEN` unset, `main` exits with code 1 and makes
no request. -/
theorem main_exit_witness :
    ∃ events, main alwaysSuccess none = some events ∧ Event.exit 1 ∈ events ∧
      requestCount events = 0 := by
  obtain ⟨events, h1, h2, h3, -⟩ := main_exit alwaysSuccess none
  exact ⟨events, h1, h2.mpr (Or.inl rfl), h3 (Or.inl rfl)⟩

end Qiandao
